import Mathlib

/-!
# Verification of the gotraceui span reconstructor

A shallow embedding of the trace-loading core of gotraceui
(`cmd/gotraceui/main.go`, with the compact-span helpers of the second
copy of the loader).  The sequential event pass, the transition-legality
check (`const debug = true` in the source, so the check is always on),
the per-goroutine finalization pass and the packed event-id helpers are
translated function by function; theorems about the spec's claims follow
the definitions.
-/

set_option maxHeartbeats 1000000

/-- `schedulingState` from `main.go`: the goroutine states, the
processor-only state `stateRunningG`, and the `stateNone` zero value. -/
inductive schedulingState where
  | stateNone
  | stateInactive
  | stateActive
  | stateGCIdle
  | stateGCDedicated
  | stateBlocked
  | stateBlockedWaitingForTraceData
  | stateBlockedSend
  | stateBlockedRecv
  | stateBlockedSelect
  | stateBlockedSync
  | stateBlockedSyncOnce
  | stateBlockedSyncTriggeringGC
  | stateBlockedCond
  | stateBlockedNet
  | stateBlockedGC
  | stateBlockedSyscall
  | stateStuck
  | stateReady
  | stateCreated
  | stateDone
  | stateGCMarkAssist
  | stateGCSweep
  | stateRunningG
  deriving DecidableEq, Repr

open schedulingState

/-- The `legalStateTransitions` table of `main.go`, row by row; a pair
absent from the table is `false` (Go's zero value). -/
def legalStateTransitions (prev next : schedulingState) : Bool :=
  match prev, next with
  | stateInactive, stateActive => true
  | stateInactive, stateReady => true
  | stateInactive, stateBlockedSyscall => true
  | stateInactive, stateGCMarkAssist => true
  | stateActive, stateInactive => true
  | stateActive, stateBlocked => true
  | stateActive, stateBlockedSend => true
  | stateActive, stateBlockedRecv => true
  | stateActive, stateBlockedSelect => true
  | stateActive, stateBlockedSync => true
  | stateActive, stateBlockedSyncOnce => true
  | stateActive, stateBlockedSyncTriggeringGC => true
  | stateActive, stateBlockedWaitingForTraceData => true
  | stateActive, stateBlockedCond => true
  | stateActive, stateBlockedNet => true
  | stateActive, stateBlockedGC => true
  | stateActive, stateBlockedSyscall => true
  | stateActive, stateStuck => true
  | stateActive, stateDone => true
  | stateActive, stateGCMarkAssist => true
  | stateActive, stateGCSweep => true
  | stateGCIdle, stateInactive => true
  | stateGCIdle, stateBlockedSync => true
  | stateGCDedicated, stateInactive => true
  | stateGCDedicated, stateBlockedSync => true
  | stateCreated, stateActive => true
  | stateCreated, stateInactive => true
  | stateCreated, stateBlocked => true
  | stateCreated, stateBlockedSyscall => true
  | stateReady, stateActive => true
  | stateReady, stateGCMarkAssist => true
  | stateReady, stateGCIdle => true
  | stateReady, stateGCDedicated => true
  | stateBlocked, stateReady => true
  | stateBlockedSend, stateReady => true
  | stateBlockedRecv, stateReady => true
  | stateBlockedSelect, stateReady => true
  | stateBlockedSync, stateReady => true
  | stateBlockedSyncOnce, stateReady => true
  | stateBlockedSyncTriggeringGC, stateReady => true
  | stateBlockedWaitingForTraceData, stateReady => true
  | stateBlockedCond, stateReady => true
  | stateBlockedNet, stateReady => true
  | stateBlockedGC, stateReady => true
  | stateBlockedSyscall, stateReady => true
  | stateGCMarkAssist, stateActive => true
  | stateGCMarkAssist, stateInactive => true
  | stateGCMarkAssist, stateBlocked => true
  | stateGCMarkAssist, stateBlockedSync => true
  | stateGCMarkAssist, stateBlockedGC => true
  | stateGCSweep, stateActive => true
  | _, _ => false

/-- The event types dispatched by `loadTrace`; `EvUnknown` stands for any
type the reconstructor has no rule for (the `default:` branch). -/
inductive EvType where
  | EvGoCreate
  | EvGoStart
  | EvGoStartLabel
  | EvGoStop
  | EvGoEnd
  | EvGoSched
  | EvGoSleep
  | EvGoPreempt
  | EvGoBlockSend
  | EvGoBlockRecv
  | EvGoBlockSelect
  | EvGoBlockSync
  | EvGoBlockCond
  | EvGoBlockNet
  | EvGoBlockGC
  | EvGoBlock
  | EvGoWaiting
  | EvGoUnblock
  | EvGoSysCall
  | EvGoSysBlock
  | EvGoInSyscall
  | EvGoSysExit
  | EvProcStart
  | EvProcStop
  | EvGCMarkAssistStart
  | EvGCMarkAssistDone
  | EvGCSweepStart
  | EvGCSweepDone
  | EvGCStart
  | EvGCSTWStart
  | EvGCDone
  | EvGCSTWDone
  | EvHeapAlloc
  | EvHeapGoal
  | EvGomaxprocs
  | EvUserTaskCreate
  | EvUserTaskEnd
  | EvUserRegion
  | EvUserLog
  | EvCPUSample
  | EvUnknown
  deriving DecidableEq, Repr

/-- `trace.Event` as consumed by the loader: type tag, timestamp, owning
goroutine, processor, the first three integer arguments and the stack id. -/
structure Event where
  typ : EvType
  Ts : Int
  G : Nat
  P : Nat
  arg0 : Nat
  arg1 : Nat
  arg2 : Nat
  StkID : Nat
  deriving DecidableEq, Repr

/-- `Span` from `main.go` (`Start`, `End`, `State`, the originating
event, `Reason`, the side-event list, `Stack`, `Tags`, `At`). -/
structure Span where
  Start : Int
  End : Int
  State : schedulingState
  ev : Event
  Reason : String
  Events : List Event
  Stack : Nat
  Tags : Nat
  At : Nat
  deriving DecidableEq, Repr

/-- `Goroutine` from `main.go`. -/
structure Goroutine where
  ID : Nat
  Function : String
  Spans : List Span
  deriving DecidableEq, Repr

/-- `Processor` from `main.go`. -/
structure Processor where
  ID : Nat
  Spans : List Span
  deriving DecidableEq, Repr

/-- The slice of `trace.ParseResult` the loader reads: the event list and
the stack / pc-function-name / string tables (map lookups; a missing key
yields Go's zero value, which total functions model directly). -/
structure ParseResult where
  Events : List Event
  Stacks : Nat → List Nat
  PCs : Nat → String
  Strings : Nat → String

/-- The finished `Trace` model (the embedded `trace.ParseResult` of the
source only carries the original lookup tables and is omitted). -/
structure Trace where
  Gs : List Goroutine
  Ps : List Processor
  GC : List Span
  STW : List Span
  deriving DecidableEq, Repr

/-- `blockedIsInactive` from `main.go`: the fixed allow-list of runtime
background goroutines whose blocking is really idling. -/
def blockedIsInactive (fn : String) : Bool :=
  if fn = "" then false
  else if fn = "runtime.gcBgMarkWorker" then true
  else if fn = "runtime.forcegchelper" then true
  else if fn = "runtime.bgsweep" then true
  else if fn = "runtime.bgscavenge" then true
  else if fn = "runtime.runfinq" then true
  else false

/-! ## The mutable maps of the sequential pass -/

/-- `gsByID` lookup. -/
def lookupG : List (Nat × Goroutine) → Nat → Option Goroutine
  | [], _ => none
  | (k, g) :: rest, gid => if k = gid then some g else lookupG rest gid

/-- Insert-or-update for `gsByID`. -/
def setG : List (Nat × Goroutine) → Nat → Goroutine → List (Nat × Goroutine)
  | [], gid, g => [(gid, g)]
  | (k, g0) :: rest, gid, g => if k = gid then (gid, g) :: rest else (k, g0) :: setG rest gid g

/-- `getG` from `loadTrace`: the goroutine for `gid`, created as
`&Goroutine{ID: gid}` on first reference. -/
def getG (gs : List (Nat × Goroutine)) (gid : Nat) : Goroutine :=
  (lookupG gs gid).getD { ID := gid, Function := "", Spans := [] }

/-- `psByID` lookup. -/
def lookupP : List (Nat × Processor) → Nat → Option Processor
  | [], _ => none
  | (k, p) :: rest, pid => if k = pid then some p else lookupP rest pid

/-- Insert-or-update for `psByID`. -/
def setP : List (Nat × Processor) → Nat → Processor → List (Nat × Processor)
  | [], pid, p => [(pid, p)]
  | (k, p0) :: rest, pid, p => if k = pid then (pid, p) :: rest else (k, p0) :: setP rest pid p

/-- `getP` from `loadTrace`. -/
def getP (ps : List (Nat × Processor)) (pid : Nat) : Processor :=
  (lookupP ps pid).getD { ID := pid, Spans := [] }

/-- Lookup in the `lastSyscall` map; a missing key yields Go's zero value 0. -/
def lookupSyscall : List (Nat × Nat) → Nat → Nat
  | [], _ => 0
  | (k, v) :: rest, gid => if k = gid then v else lookupSyscall rest gid

/-- Insert-or-update for the `lastSyscall` map. -/
def setSyscall : List (Nat × Nat) → Nat → Nat → List (Nat × Nat)
  | [], gid, v => [(gid, v)]
  | (k, v0) :: rest, gid, v => if k = gid then (gid, v) :: rest else (k, v0) :: setSyscall rest gid v

/-- The `inMarkAssist` set: insert a goroutine id. -/
def markAssistInsert (s : List Nat) (gid : Nat) : List Nat :=
  if s.contains gid then s else gid :: s

/-- The `inMarkAssist` set: delete a goroutine id. -/
def markAssistDelete (s : List Nat) (gid : Nat) : List Nat :=
  s.filter (fun x => x ≠ gid)

/-! ## Span-list helpers -/

/-- Append a side event to the `Events` of the last span
(`s := &g.Spans[len(g.Spans)-1]; s.Events = append(s.Events, ev)`). -/
def appendEventToLast (ev : Event) : List Span → List Span
  | [] => []
  | [s] => [{ s with Events := s.Events ++ [ev] }]
  | s :: rest => s :: appendEventToLast ev rest

/-- Set the `End` of the last span of a list
(`spans[len(spans)-1].End = ts`); `none` when the list is empty, which in
Go is an index-out-of-range panic. -/
def closeLast (t : Int) : List Span → Option (List Span)
  | [] => none
  | [s] => some [{ s with End := t }]
  | s :: rest => (closeLast t rest).map (s :: ·)

/-- `addEventToCurrentSpan` from `loadTrace` in `main.go`: a no-op for
goroutine id 0, a panic (`Except.error`) when the goroutine has no spans,
otherwise the event is appended to the current span's side-event list. -/
def addEventToCurrentSpan (gs : List (Nat × Goroutine)) (gid : Nat) (ev : Event) :
    Except String (List (Nat × Goroutine)) :=
  if gid = 0 then .ok gs
  else
    let g := getG gs gid
    if g.Spans = [] then .error "tried to add event, but goroutine has no spans"
    else .ok (setG gs gid { g with Spans := appendEventToLast ev g.Spans })

/-! ## The sequential pass -/

/-- The `pState` locals of the event loop. -/
inductive PState where
  | pNone
  | pRunG
  | pStopG
  deriving DecidableEq, Repr

/-- The in-progress state of the sequential pass: the goroutine and
processor maps, the flat GC/STW span lists, the per-goroutine
`lastSyscall` stack map and the `inMarkAssist` set. -/
structure LoadState where
  gs : List (Nat × Goroutine)
  ps : List (Nat × Processor)
  gc : List Span
  stw : List Span
  lastSyscall : List (Nat × Nat)
  inMarkAssist : List Nat
  deriving DecidableEq, Repr

/-- The empty state at the start of the event loop. -/
def initLoadState : LoadState :=
  { gs := [], ps := [], gc := [], stw := [], lastSyscall := [], inMarkAssist := [] }

/-- The outcome of the per-event `switch`: `skip` for the `continue`
branches, `commit` when the event assigns `gid`/`state`/`reason`/`pState`
and falls through to the span append, `fail` for a panic or the
unsupported-event return. -/
inductive StepAction where
  | skip (st : LoadState)
  | commit (gid : Nat) (state : schedulingState) (reason : String) (pst : PState) (st : LoadState)
  | fail (msg : String)
  deriving DecidableEq, Repr

/-- A fresh goroutine span, as built at the bottom of the event loop:
`Span{Start: ev.Ts, State: state, Event: ev, Reason: reason, Stack: ev.StkID}`
(the stack is replaced for `EvGoSysBlock` in `commitSpan`). -/
def mkSpan (ev : Event) (state : schedulingState) (reason : String) (stk : Nat) : Span :=
  { Start := ev.Ts, End := 0, State := state, ev := ev, Reason := reason,
    Events := [], Stack := stk, Tags := 0, At := 0 }

/-- The big per-event-type `switch` of `loadTrace` (`main.go`), with the
side effects each branch performs before the legality check. -/
def dispatch (res : ParseResult) (st : LoadState) (ev : Event) : StepAction :=
  match ev.typ with
  | .EvGoCreate =>
    -- ev.G creates ev.Args[0]
    let withSide : Except String LoadState :=
      if ev.G ≠ 0 then
        match addEventToCurrentSpan st.gs ev.G ev with
        | .error m => .error m
        | .ok gs1 => .ok { st with gs := gs1 }
      else .ok st
    match withSide with
    | .error m => .fail m
    | .ok st1 =>
      let gid := ev.arg0
      let st2 :=
        if ev.arg1 ≠ 0 then
          match res.Stacks ev.arg1 with
          | [] => st1
          | pc :: _ =>
            { st1 with gs := setG st1.gs gid { getG st1.gs gid with Function := res.PCs pc } }
        else st1
      .commit gid stateCreated "newly created" .pNone st2
  | .EvGoStart =>
    -- ev.G starts running
    .commit ev.G (if st.inMarkAssist.contains ev.G then stateGCMarkAssist else stateActive)
      "" .pRunG st
  | .EvGoStartLabel =>
    -- ev.G starts running, with a label choosing GC dedicated/idle workers
    let state :=
      if res.Strings ev.arg2 = "GC (dedicated)" then stateGCDedicated
      else if res.Strings ev.arg2 = "GC (idle)" then stateGCIdle
      else stateActive
    .commit ev.G state "" .pRunG st
  | .EvGoStop => .commit ev.G stateStuck "" .pStopG st
  | .EvGoEnd => .commit ev.G stateDone "" .pStopG st
  | .EvGoSched => .commit ev.G stateInactive "called runtime.Gosched" .pStopG st
  | .EvGoSleep => .commit ev.G stateInactive "called time.Sleep" .pStopG st
  | .EvGoPreempt => .commit ev.G stateInactive "got preempted" .pStopG st
  | .EvGoBlockSend => .commit ev.G stateBlockedSend "" .pStopG st
  | .EvGoBlockRecv => .commit ev.G stateBlockedRecv "" .pStopG st
  | .EvGoBlockSelect => .commit ev.G stateBlockedSelect "" .pStopG st
  | .EvGoBlockSync => .commit ev.G stateBlockedSync "" .pStopG st
  | .EvGoBlockCond => .commit ev.G stateBlockedCond "" .pStopG st
  | .EvGoBlockNet => .commit ev.G stateBlockedNet "" .pStopG st
  | .EvGoBlockGC => .commit ev.G stateBlockedGC "" .pStopG st
  | .EvGoBlock =>
    -- the generic block event consults blockedIsInactive on the raw map
    -- (a missing entry is a nil-pointer dereference in Go)
    match lookupG st.gs ev.G with
    | none => .fail "nil goroutine"
    | some g =>
      .commit ev.G (if blockedIsInactive g.Function then stateInactive else stateBlocked)
        "" .pStopG st
  | .EvGoWaiting =>
    -- ev.G is blocked when tracing starts
    match lookupG st.gs ev.G with
    | none => .fail "nil goroutine"
    | some g =>
      .commit ev.G (if blockedIsInactive g.Function then stateInactive else stateBlocked)
        "" .pNone st
  | .EvGoUnblock =>
    -- ev.G is unblocking ev.Args[0]
    match addEventToCurrentSpan st.gs ev.G ev with
    | .error m => .fail m
    | .ok gs1 => .commit ev.arg0 stateReady "" .pNone { st with gs := gs1 }
  | .EvGoSysCall =>
    -- records the stack for a later EvGoSysBlock; no span opened or closed
    let st1 := { st with lastSyscall := setSyscall st.lastSyscall ev.G ev.StkID }
    match addEventToCurrentSpan st1.gs ev.G ev with
    | .error m => .fail m
    | .ok gs1 => .skip { st1 with gs := gs1 }
  | .EvGoSysBlock => .commit ev.G stateBlockedSyscall "" .pStopG st
  | .EvGoInSyscall => .commit ev.G stateBlockedSyscall "" .pNone st
  | .EvGoSysExit => .commit ev.G stateReady "" .pNone st
  | .EvProcStart => .skip st
  | .EvProcStop => .skip st
  | .EvGCMarkAssistStart =>
    .commit ev.G stateGCMarkAssist "" .pNone
      { st with inMarkAssist := markAssistInsert st.inMarkAssist ev.G }
  | .EvGCMarkAssistDone =>
    .commit ev.G stateActive "" .pNone
      { st with inMarkAssist := markAssistDelete st.inMarkAssist ev.G }
  | .EvGCSweepStart => .commit ev.G stateGCSweep "" .pNone st
  | .EvGCSweepDone => .commit ev.G stateActive "" .pNone st
  | .EvGCStart => .skip { st with gc := st.gc ++ [mkSpan ev stateActive "" ev.StkID] }
  | .EvGCSTWStart => .skip { st with stw := st.stw ++ [mkSpan ev stateActive "" ev.StkID] }
  | .EvGCDone =>
    -- gc[len(gc)-1].End = ev.Ts, with no emptiness guard in the source
    match closeLast ev.Ts st.gc with
    | none => .fail "index out of range"
    | some gc1 => .skip { st with gc := gc1 }
  | .EvGCSTWDone =>
    match closeLast ev.Ts st.stw with
    | none => .fail "index out of range"
    | some stw1 => .skip { st with stw := stw1 }
  | .EvHeapAlloc => .skip st
  | .EvHeapGoal => .skip st
  | .EvGomaxprocs => .skip st
  | .EvUserTaskCreate => .skip st
  | .EvUserTaskEnd => .skip st
  | .EvUserRegion => .skip st
  | .EvUserLog =>
    match addEventToCurrentSpan st.gs ev.G ev with
    | .error m => .fail m
    | .ok gs1 => .skip { st with gs := gs1 }
  | .EvCPUSample => .skip st
  | .EvUnknown => .fail "unsupported trace event"

/-- The trace-start carve-out of the legality check:
`len(s) == 1 && ev.Type == EvGoWaiting && s[0].State == stateInactive`. -/
def traceStartCarveOut (ev : Event) (spans : List Span) : Bool :=
  match spans with
  | [s] => ev.typ = .EvGoWaiting && s.State = stateInactive
  | _ => false

/-- The tail of the event loop for a committing event: the transition
legality check (`const debug = true`, so it always runs), the span append
on the subject goroutine, and the processor-span side effect. -/
def commitSpan (st : LoadState) (ev : Event) (gid : Nat) (state : schedulingState)
    (reason : String) (pst : PState) : Except String LoadState :=
  let spans := (getG st.gs gid).Spans
  let ok : Bool :=
    match spans.getLast? with
    | none => true
    | some prev => traceStartCarveOut ev spans || legalStateTransitions prev.State state
  if ok then
    let stk := if ev.typ = .EvGoSysBlock then lookupSyscall st.lastSyscall ev.G else ev.StkID
    let g := getG st.gs gid
    let st1 := { st with gs := setG st.gs gid { g with Spans := g.Spans ++ [mkSpan ev state reason stk] } }
    match pst with
    | .pNone => .ok st1
    | .pRunG =>
      let p := getP st1.ps ev.P
      .ok { st1 with
            ps := setP st1.ps ev.P { p with Spans := p.Spans ++ [mkSpan ev stateRunningG "" 0] } }
    | .pStopG =>
      let p := getP st1.ps ev.P
      match closeLast ev.Ts p.Spans with
      | none => .error "index out of range"
      | some spans1 => .ok { st1 with ps := setP st1.ps ev.P { p with Spans := spans1 } }
  else .error "illegal state transition"

/-- One iteration of the event loop. -/
def processEvent (res : ParseResult) (st : LoadState) (ev : Event) : Except String LoadState :=
  match dispatch res st ev with
  | .skip st1 => .ok st1
  | .fail m => .error m
  | .commit gid state reason pst st1 => commitSpan st1 ev gid state reason pst

/-- The sequential pass over the whole event list; a panic or an
unsupported event aborts construction. -/
def runEvents (res : ParseResult) (st : LoadState) : List Event → Except String LoadState
  | [] => .ok st
  | ev :: evs =>
    match processEvent res st ev with
    | .error m => .error m
    | .ok st1 => runEvents res st1 evs

/-! ## The finalization pass -/

/-- Modelled from the spec: the Stack-Pattern Classifier (`applyPatterns`),
whose definition is not among the provided sources.  Per the spec it is a
pure function of (state, stack) that may only specialize the coarse state
(the example given: a blocked-on-sync span whose stack shows the
runtime's sync.Once internal path becomes blocked-on-sync.Once); it
touches no other span field and leaves unrecognized stacks unchanged. -/
def applyPatterns (s : Span) (pcs : Nat → String) (stack : List Nat) : Span :=
  match s.State, stack with
  | stateBlockedSync, pc :: _ =>
    if pcs pc = "sync.(*Once).doSlow" then { s with State := stateBlockedSyncOnce } else s
  | _, _ => s

/-- Go's `strings.HasPrefix`. -/
def goHasPre (s pre : String) : Bool :=
  pre.data.isPrefixOf s.data

/-- The body of the `s.At` advancement loop of the finalizer in `main.go`,
with an explicit iteration budget (the loop runs at most
`len(stack) - s.At` times, which the caller supplies):
`for s.At+1 < len(stack) && strings.HasPrefix(res.PCs[stack[s.At]].Fn, "runtime.") { s.At++ }`. -/
def advanceAtGo (pcs : Nat → String) (stack : List Nat) : Nat → Nat → Nat
  | 0, a => a
  | fuel + 1, a =>
    if a + 1 < stack.length ∧ goHasPre (pcs (stack.getD a 0)) "runtime." = true then
      advanceAtGo pcs stack fuel (a + 1)
    else a

/-- The `s.At` advancement loop of the finalizer in `main.go`. -/
def advanceAt (pcs : Nat → String) (stack : List Nat) (a : Nat) : Nat :=
  advanceAtGo pcs stack (stack.length - a) a

/-- The body of the `s.at` advancement loop of the finalizer in the second
copy of the loader, where `at` is a byte, with an explicit iteration
budget:
`for int(s.at+1) < len(stack) && s.at < 255 && strings.HasPrefix(res.PCs[stack[s.at]].Fn, "runtime.") { s.at++ }`. -/
def advanceAtCompactGo (pcs : Nat → String) (stack : List Nat) : Nat → Nat → Nat
  | 0, a => a
  | fuel + 1, a =>
    if a + 1 < stack.length ∧ a < 255 ∧ goHasPre (pcs (stack.getD a 0)) "runtime." = true then
      advanceAtCompactGo pcs stack fuel (a + 1)
    else a

/-- The `s.at` advancement loop of the finalizer in the second copy of
the loader. -/
def advanceAtCompact (pcs : Nat → String) (stack : List Nat) (a : Nat) : Nat :=
  advanceAtCompactGo pcs stack (stack.length - a) a

/-- One iteration of the finalizer's span loop: fill the end from the next
span's start (except for the last span), apply the Stack-Pattern
Classifier, and move `At` out of the runtime. -/
def finalizeSpan (res : ParseResult) (nextStart : Option Int) (s : Span) : Span :=
  let s1 := match nextStart with
    | some t => { s with End := t }
    | none => s
  let stack := res.Stacks s1.Stack
  let s2 := applyPatterns s1 res.PCs stack
  { s2 with At := advanceAt res.PCs stack s2.At }

/-- The finalizer's loop over one goroutine's spans. -/
def finalizeLoop (res : ParseResult) : List Span → List Span
  | [] => []
  | [s] => [finalizeSpan res none s]
  | s :: t :: rest => finalizeSpan res (some t.Start) s :: finalizeLoop res (t :: rest)

/-- The per-goroutine finalization unit: the span loop, then the handling
of the still-open last span (a `stateDone` span is dropped, anything else
runs to the trace's final event timestamp). -/
def finalizeG (res : ParseResult) (lastTs : Int) (spans : List Span) : List Span :=
  let spans1 := finalizeLoop res spans
  match spans1.getLast? with
  | none => []
  | some last =>
    if last.State = stateDone then spans1.dropLast
    else (closeLast lastTs spans1).getD spans1

/-- Insertion into a by-ID-sorted goroutine list. -/
def insertGByID (g : Goroutine) : List Goroutine → List Goroutine
  | [] => [g]
  | h :: t => if g.ID ≤ h.ID then g :: h :: t else h :: insertGByID g t

/-- `sort.Slice(gs, ...)` by ascending ID. -/
def sortGsByID (l : List Goroutine) : List Goroutine :=
  l.foldr insertGByID []

/-- Insertion into a by-ID-sorted processor list. -/
def insertPByID (p : Processor) : List Processor → List Processor
  | [] => [p]
  | h :: t => if p.ID ≤ h.ID then p :: h :: t else h :: insertPByID p t

/-- `sort.Slice(ps, ...)` by ascending ID. -/
def sortPsByID (l : List Processor) : List Processor :=
  l.foldr insertPByID []

/-- `loadTrace` (minus file I/O and progress reporting): the sequential
pass, the per-goroutine finalization (the worker pool computes one
independent unit per goroutine, so it is modelled as a map), the dropping
of goroutines with no retained spans, and the by-ID sorts.  Processors
receive no finalization. -/
def loadTrace (res : ParseResult) : Except String Trace :=
  match runEvents res initLoadState res.Events with
  | .error m => .error m
  | .ok st =>
    let lastTs := ((res.Events.map Event.Ts).getLast?).getD 0
    let gsFin := st.gs.map fun e => { e.2 with Spans := finalizeG res lastTs e.2.Spans }
    let gs := gsFin.filter fun g => g.Spans ≠ []
    let ps := st.ps.map fun e => e.2
    .ok { Gs := sortGsByID gs, Ps := sortPsByID ps, GC := st.gc, STW := st.stw }

/-! ## The packed event references of the compact span representation -/

/-- `packEventID` from the second copy of the loader: the little-endian
5-byte encoding of an event id (`byte(id), byte(id >> 8), ...`); ids of
`2^40` or more do not fit and trip the debug guard in the source. -/
def packEventID (id : Nat) : List Nat :=
  [id % 256, id >>> 8 % 256, id >>> 16 % 256, id >>> 24 % 256, id >>> 32 % 256]

/-- `Span.event()` from the second copy of the loader: reassemble the
packed 5-byte little-endian event id
(`EventID(b0) | EventID(b1)<<8 | EventID(b2)<<16 | EventID(b3)<<24 | EventID(b4)<<32`);
any other shape yields 0 (unreachable for a `[5]byte`). -/
def eventOfPacked : List Nat → Nat
  | [b0, b1, b2, b3, b4] => b0 ||| b1 <<< 8 ||| b2 <<< 16 ||| b3 <<< 24 ||| b4 <<< 32
  | _ => 0

/-- `fromUint40` from the second copy of the loader: the all-0xFF
encoding decodes to the sentinel -1, anything else to the little-endian
value. -/
def fromUint40 (n : List Nat) : Int :=
  if n = [255, 255, 255, 255, 255] then -1
  else Int.ofNat (eventOfPacked n)

/-! ## Derived predicates and fixtures used by the theorems -/

/-- The scheduling-relevant shape of a span: start, end, state, stack
(everything except the event references, the reason text and `Tags`/`At`). -/
def spanShape (s : Span) : Int × Int × schedulingState × Nat :=
  (s.Start, s.End, s.State, s.Stack)

/-- The contiguity property the spec claims of a single span list:
adjacent spans share their boundary, and the first start is no later than
the last end. -/
def spansContig (l : List Span) : Prop :=
  l.Chain' (fun s t => s.End = t.Start) ∧
  ∀ s ∈ l.head?, ∀ t ∈ l.getLast?, s.Start ≤ t.End

/-- The claim-C1 property of a finished trace: contiguity for every
goroutine and every processor. -/
def ContigClaimProp (tr : Trace) : Prop :=
  (∀ g ∈ tr.Gs, spansContig g.Spans) ∧ (∀ p ∈ tr.Ps, spansContig p.Spans)

def decOptionBAll {α : Type _} (p : α → Prop) [DecidablePred p] :
    (o : Option α) → Decidable (∀ a ∈ o, p a)
  | none => isTrue (fun _ h => nomatch h)
  | some x =>
    if hx : p x then isTrue (fun a h => by cases h; exact hx)
    else isFalse (fun h => hx (h x rfl))

instance {α : Type _} (p : α → Prop) [DecidablePred p] (o : Option α) :
    Decidable (∀ a ∈ o, p a) :=
  decOptionBAll p o

def decChainGo {α : Type _} (r : α → α → Prop) [DecidableRel r] :
    (a : α) → (l : List α) → Decidable (List.Chain r a l)
  | _, [] => isTrue .nil
  | a, b :: l =>
    match decChainGo r b l with
    | isTrue h =>
      if hr : r a b then isTrue (.cons hr h)
      else isFalse (fun hc => by cases hc; contradiction)
    | isFalse h => isFalse (fun hc => by cases hc; contradiction)

instance {α : Type _} (r : α → α → Prop) [DecidableRel r] (a : α) (l : List α) :
    Decidable (List.Chain r a l) :=
  decChainGo r a l

instance {α : Type _} (r : α → α → Prop) [DecidableRel r] :
    (l : List α) → Decidable (List.Chain' r l)
  | [] => isTrue True.intro
  | a :: l => decChainGo r a l

instance (l : List Span) : Decidable (spansContig l) :=
  inferInstanceAs (Decidable (l.Chain' (fun (s t : Span) => s.End = t.Start) ∧
    ∀ s ∈ l.head?, ∀ t ∈ l.getLast?, s.Start ≤ t.End))

instance : DecidablePred ContigClaimProp := fun tr =>
  inferInstanceAs (Decidable
    ((∀ g ∈ tr.Gs, spansContig g.Spans) ∧ (∀ p ∈ tr.Ps, spansContig p.Spans)))

/-- The trace carried by an `ok` outcome (a dummy empty trace otherwise). -/
def resultTrace (r : Except String Trace) : Trace :=
  r.toOption.getD { Gs := [], Ps := [], GC := [], STW := [] }

/-- Event constructor for concrete example traces. -/
def mkEv (t : EvType) (ts : Int) (g p a0 a1 a2 stk : Nat) : Event :=
  { typ := t, Ts := ts, G := g, P := p, arg0 := a0, arg1 := a1, arg2 := a2, StkID := stk }

/-- A parse result with empty lookup tables around a given event list. -/
def res0 (evs : List Event) : ParseResult :=
  { Events := evs, Stacks := fun _ => [], PCs := fun _ => "", Strings := fun _ => "" }

/-- The spec's walk-through scenario: create, start, block on network,
unblock, start again, end. -/
def evsScenario : List Event :=
  [ mkEv .EvGoCreate 1 0 0 5 0 0 0,
    mkEv .EvGoStart 2 5 0 0 0 0 0,
    mkEv .EvGoBlockNet 3 5 0 0 0 0 0,
    mkEv .EvGoUnblock 4 0 0 5 0 0 0,
    mkEv .EvGoStart 5 5 0 0 0 0 0,
    mkEv .EvGoEnd 6 5 0 0 0 0 0 ]

/-- A trace whose processor timeline has a gap (goroutine 1 is scheduled
out at t = 2 and back in at t = 3) and whose last processor span is never
closed. -/
def evsGap : List Event :=
  [ mkEv .EvGoStart 1 1 0 0 0 0 0,
    mkEv .EvGoSched 2 1 0 0 0 0 0,
    mkEv .EvGoStart 3 1 0 0 0 0 0,
    mkEv .EvGoSched 4 1 0 0 0 0 0,
    mkEv .EvGoStart 5 1 0 0 0 0 0 ]

/-- Two GC-start events followed by a single GC-done. -/
def evsGCNested : List Event :=
  [ mkEv .EvGCStart 1 0 0 0 0 0 0,
    mkEv .EvGCStart 2 0 0 0 0 0 0,
    mkEv .EvGCDone 3 0 0 0 0 0 0 ]

/-- Start, syscall entry with stack 7, then syscall block (whose own
event carries stack 0). -/
def evsSyscall : List Event :=
  [ mkEv .EvGoStart 1 1 0 0 0 0 0,
    mkEv .EvGoSysCall 2 1 0 0 0 0 7,
    mkEv .EvGoSysBlock 3 1 0 0 0 0 0 ]

/-- A placeholder originating event for hand-built states. -/
def ev0 : Event := mkEv .EvGoStart 0 0 0 0 0 0 0

/-- A goroutine created by the allow-listed `runtime.bgsweep`, with an
open Active span. -/
def gBgsweep : Goroutine :=
  { ID := 5, Function := "runtime.bgsweep", Spans := [mkSpan ev0 stateActive "" 0] }

/-- A hand-built mid-pass state: goroutine 5 (created by
`runtime.bgsweep`) has an open Active span, and processor 0 has an open
running span. -/
def stBgsweep : LoadState :=
  { gs := [(5, gBgsweep)],
    ps := [(0, { ID := 0, Spans := [mkSpan ev0 stateRunningG "" 0] })],
    gc := [], stw := [], lastSyscall := [], inMarkAssist := [] }

/-- The outcome state of an `ok` step (the empty state otherwise). -/
def resultLoadState (r : Except String LoadState) : LoadState :=
  r.toOption.getD initLoadState

/-- A typed block event (blocked on channel receive) for goroutine 5. -/
def evBlockRecv : Event := mkEv .EvGoBlockRecv 10 5 0 0 0 0 0

/-- A hand-built mid-pass state: goroutine 1 is already in a Blocked span. -/
def stBlocked : LoadState :=
  { gs := [(1, { ID := 1, Function := "main.main", Spans := [mkSpan ev0 stateBlocked "" 0] })],
    ps := [], gc := [], stw := [], lastSyscall := [], inMarkAssist := [] }

/-- A second generic block event for the already-blocked goroutine 1. -/
def evBlockAgain : Event := mkEv .EvGoBlock 10 1 0 0 0 0 0

/-- A generic block event for the bgsweep goroutine 5. -/
def evGoBlockW : Event := mkEv .EvGoBlock 10 5 0 0 0 0 0

/-- A GC-done event at t = 3. -/
def evGCDone3 : Event := mkEv .EvGCDone 3 0 0 0 0 0 0

/-- A state with exactly one (open) GC span. -/
def stGCOne : LoadState := { initLoadState with gc := [mkSpan ev0 stateActive "" 0] }

/-- A user-log event for goroutine 7 (which has no spans in the empty state). -/
def evUserLog7 : Event := mkEv .EvUserLog 1 7 0 0 0 0 0

/-- A goroutine-start event for goroutine 5. -/
def evGoStart5 : Event := mkEv .EvGoStart 4 5 0 0 0 0 0

/-- A state in which goroutine 5 is in the in-progress mark-assist set
and ready to start. -/
def stMarkAssist : LoadState :=
  { gs := [(5, { ID := 5, Function := "", Spans := [mkSpan ev0 stateReady "" 0] })],
    ps := [], gc := [], stw := [], lastSyscall := [], inMarkAssist := [5] }

/-- The parse result around the syscall scenario. -/
def resSysW : ParseResult := res0 evsSyscall

/-- The syscall-entry event of the scenario (stack id 7). -/
def evSysCallW : Event := mkEv .EvGoSysCall 2 1 0 0 0 0 7

/-- The syscall-block event of the scenario (its own stack id is 0). -/
def evSysBlockW : Event := mkEv .EvGoSysBlock 3 1 0 0 0 0 0

/-- The state after the scenario's start event. -/
def stSysA : LoadState :=
  resultLoadState (processEvent resSysW initLoadState (mkEv .EvGoStart 1 1 0 0 0 0 0))

/-- The state after the syscall-entry event. -/
def stSysB : LoadState := resultLoadState (processEvent resSysW stSysA evSysCallW)

/-- The state after the syscall-block event. -/
def stSysC : LoadState := resultLoadState (processEvent resSysW stSysB evSysBlockW)

/-! ## Shape-level invariants for the sequential pass -/

/-- Span shape: (start, (end, (state, stack))). -/
abbrev SpanSh := Int × Int × schedulingState × Nat

/-- Set the end field of the last shape. -/
def setLastEndSh (t : Int) : List SpanSh → List SpanSh
  | [] => []
  | [x] => [(x.1, t, x.2.2)]
  | x :: rest => x :: setLastEndSh t rest

/-- Invariant of one goroutine's span shapes mid-pass, relative to the
timestamp bound `b`: starts are sorted and within `[0, b]`. -/
def GStartsInv (l : List SpanSh) (b : Int) : Prop :=
  l.Chain' (fun x y => x.1 ≤ y.1) ∧
  (∀ x ∈ l, 0 ≤ x.1 ∧ x.1 ≤ b)

/-- Invariant of one processor's span shapes mid-pass: starts sorted and
within `[0, b]`, ends within `[0, b]` (0 while still open), and each
span's end at most the next span's start. -/
def PShInv (l : List SpanSh) (b : Int) : Prop :=
  l.Chain' (fun x y => x.1 ≤ y.1) ∧
  (∀ x ∈ l, 0 ≤ x.1 ∧ x.1 ≤ b ∧ 0 ≤ x.2.1 ∧ x.2.1 ≤ b) ∧
  l.Chain' (fun x y => x.2.1 ≤ y.1)

/-- Only the last span of any goroutine may carry `stateDone`
(a consequence of the transition-legality check: `stateDone` has no legal
successor). -/
def DoneInv (gs : List (Nat × Goroutine)) : Prop :=
  ∀ k, ∀ x ∈ (((getG gs k).Spans).map spanShape).dropLast, x.2.2.1 ≠ stateDone

/-- The timestamp-relative invariant of the whole sequential-pass state. -/
def TimeInv (st : LoadState) (b : Int) : Prop :=
  0 ≤ b ∧
  (∀ k, GStartsInv (((getG st.gs k).Spans).map spanShape) b) ∧
  (∀ k, PShInv (((getP st.ps k).Spans).map spanShape) b)

/-- The id maps of the pass never hold duplicate keys. -/
def KeysInv (st : LoadState) : Prop :=
  (st.gs.map Prod.fst).Nodup ∧ (st.ps.map Prod.fst).Nodup

/-- Two goroutine maps with identical span shapes everywhere. -/
def GsShapeEq (gs gs1 : List (Nat × Goroutine)) : Prop :=
  ∀ k, ((getG gs1 k).Spans).map spanShape = ((getG gs k).Spans).map spanShape

/-- A goroutine-map evolution that preserves every goroutine's span
shapes and key uniqueness. -/
def GsPreserves (gs gs1 : List (Nat × Goroutine)) : Prop :=
  GsShapeEq gs gs1 ∧ ((gs.map Prod.fst).Nodup → (gs1.map Prod.fst).Nodup)

/-- A dispatch step that leaves all span structure untouched: goroutine
span shapes preserved, processors unchanged. -/
def StepPreserves (st st1 : LoadState) : Prop :=
  GsPreserves st.gs st1.gs ∧ st1.ps = st.ps

/-- Decidable equality for `Except` outcomes (needed to evaluate the
model on concrete traces inside proofs). -/
instance {α β : Type} [DecidableEq α] [DecidableEq β] : DecidableEq (Except α β)
  | .error x, .error y =>
    if h : x = y then .isTrue (by subst h; rfl) else .isFalse (by intro hc; cases hc; exact h rfl)
  | .error _, .ok _ => .isFalse (by intro hc; cases hc)
  | .ok _, .error _ => .isFalse (by intro hc; cases hc)
  | .ok x, .ok y =>
    if h : x = y then .isTrue (by subst h; rfl) else .isFalse (by intro hc; cases hc; exact h rfl)

/-! ## Basic lemmas about the map and span-list helpers -/

theorem lookupG_setG_self (gs : List (Nat × Goroutine)) (gid : Nat) (g : Goroutine) :
    lookupG (setG gs gid g) gid = some g := by
  induction gs with
  | nil => simp [setG, lookupG]
  | cons e rest ih =>
    obtain ⟨k, g0⟩ := e
    by_cases h : k = gid <;> simp [setG, lookupG, h, ih]

theorem lookupG_setG_ne (gs : List (Nat × Goroutine)) (gid k : Nat) (g : Goroutine)
    (h : k ≠ gid) : lookupG (setG gs gid g) k = lookupG gs k := by
  induction gs with
  | nil => simp [setG, lookupG, Ne.symm h]
  | cons e rest ih =>
    obtain ⟨k0, g0⟩ := e
    by_cases h0 : k0 = gid
    · subst h0
      simp [setG, lookupG, Ne.symm h]
    · simp only [setG, if_neg h0, lookupG]
      by_cases h1 : k0 = k <;> simp [h1, ih]

theorem getG_setG_self (gs : List (Nat × Goroutine)) (gid : Nat) (g : Goroutine) :
    getG (setG gs gid g) gid = g := by
  simp [getG, lookupG_setG_self]

theorem getG_setG_ne (gs : List (Nat × Goroutine)) (gid k : Nat) (g : Goroutine)
    (h : k ≠ gid) : getG (setG gs gid g) k = getG gs k := by
  simp [getG, lookupG_setG_ne _ _ _ _ h]

theorem setG_keys (gs : List (Nat × Goroutine)) (gid : Nat) (g : Goroutine) :
    (setG gs gid g).map Prod.fst = gs.map Prod.fst ∨
    (setG gs gid g).map Prod.fst = gs.map Prod.fst ++ [gid] := by
  induction gs with
  | nil => simp [setG]
  | cons e rest ih =>
    obtain ⟨k0, g0⟩ := e
    by_cases h0 : k0 = gid
    · subst h0
      left
      simp [setG]
    · rcases ih with ih | ih
      · left
        simp only [setG, if_neg h0, List.map_cons, ih]
      · right
        simp only [setG, if_neg h0, List.map_cons, ih, List.cons_append]

theorem setG_keys_nodup (gs : List (Nat × Goroutine)) (gid : Nat) (g : Goroutine)
    (h : (gs.map Prod.fst).Nodup) : ((setG gs gid g).map Prod.fst).Nodup := by
  induction gs with
  | nil => simp [setG]
  | cons e rest ih =>
    obtain ⟨k0, g0⟩ := e
    simp only [List.map_cons, List.nodup_cons] at h
    by_cases h0 : k0 = gid
    · subst h0
      simpa [setG, List.nodup_cons] using h
    · simp only [setG, if_neg h0, List.map_cons, List.nodup_cons]
      refine ⟨?_, ih h.2⟩
      rcases setG_keys rest gid g with hk | hk
      · rw [hk]; exact h.1
      · rw [hk]
        simp only [List.mem_append, List.mem_singleton]
        rintro (hc | hc)
        · exact h.1 hc
        · exact h0 hc

theorem lookupG_of_mem_nodup (gs : List (Nat × Goroutine)) (e : Nat × Goroutine)
    (hnd : (gs.map Prod.fst).Nodup) (hm : e ∈ gs) : lookupG gs e.1 = some e.2 := by
  induction gs with
  | nil => simp at hm
  | cons e0 rest ih =>
    obtain ⟨k, g⟩ := e0
    simp only [List.map_cons, List.nodup_cons] at hnd
    rcases List.mem_cons.mp hm with h | h
    · subst h
      simp [lookupG]
    · have hk : k ≠ e.1 := by
        intro hk
        exact hnd.1 (hk ▸ List.mem_map_of_mem Prod.fst h)
      simp only [lookupG, if_neg hk]
      exact ih hnd.2 h

theorem lookupP_setP_self (ps : List (Nat × Processor)) (pid : Nat) (p : Processor) :
    lookupP (setP ps pid p) pid = some p := by
  induction ps with
  | nil => simp [setP, lookupP]
  | cons e rest ih =>
    obtain ⟨k, p0⟩ := e
    by_cases h : k = pid <;> simp [setP, lookupP, h, ih]

theorem lookupP_setP_ne (ps : List (Nat × Processor)) (pid k : Nat) (p : Processor)
    (h : k ≠ pid) : lookupP (setP ps pid p) k = lookupP ps k := by
  induction ps with
  | nil => simp [setP, lookupP, Ne.symm h]
  | cons e rest ih =>
    obtain ⟨k0, p0⟩ := e
    by_cases h0 : k0 = pid
    · subst h0
      simp [setP, lookupP, Ne.symm h]
    · simp only [setP, if_neg h0, lookupP]
      by_cases h1 : k0 = k <;> simp [h1, ih]

theorem getP_setP_self (ps : List (Nat × Processor)) (pid : Nat) (p : Processor) :
    getP (setP ps pid p) pid = p := by
  simp [getP, lookupP_setP_self]

theorem getP_setP_ne (ps : List (Nat × Processor)) (pid k : Nat) (p : Processor)
    (h : k ≠ pid) : getP (setP ps pid p) k = getP ps k := by
  simp [getP, lookupP_setP_ne _ _ _ _ h]

theorem setP_keys (ps : List (Nat × Processor)) (pid : Nat) (p : Processor) :
    (setP ps pid p).map Prod.fst = ps.map Prod.fst ∨
    (setP ps pid p).map Prod.fst = ps.map Prod.fst ++ [pid] := by
  induction ps with
  | nil => simp [setP]
  | cons e rest ih =>
    obtain ⟨k0, p0⟩ := e
    by_cases h0 : k0 = pid
    · subst h0
      left
      simp [setP]
    · rcases ih with ih | ih
      · left
        simp only [setP, if_neg h0, List.map_cons, ih]
      · right
        simp only [setP, if_neg h0, List.map_cons, ih, List.cons_append]

theorem setP_keys_nodup (ps : List (Nat × Processor)) (pid : Nat) (p : Processor)
    (h : (ps.map Prod.fst).Nodup) : ((setP ps pid p).map Prod.fst).Nodup := by
  induction ps with
  | nil => simp [setP]
  | cons e rest ih =>
    obtain ⟨k0, p0⟩ := e
    simp only [List.map_cons, List.nodup_cons] at h
    by_cases h0 : k0 = pid
    · subst h0
      simpa [setP, List.nodup_cons] using h
    · simp only [setP, if_neg h0, List.map_cons, List.nodup_cons]
      refine ⟨?_, ih h.2⟩
      rcases setP_keys rest pid p with hk | hk
      · rw [hk]; exact h.1
      · rw [hk]
        simp only [List.mem_append, List.mem_singleton]
        rintro (hc | hc)
        · exact h.1 hc
        · exact h0 hc

theorem lookupP_of_mem_nodup (ps : List (Nat × Processor)) (e : Nat × Processor)
    (hnd : (ps.map Prod.fst).Nodup) (hm : e ∈ ps) : lookupP ps e.1 = some e.2 := by
  induction ps with
  | nil => simp at hm
  | cons e0 rest ih =>
    obtain ⟨k, p⟩ := e0
    simp only [List.map_cons, List.nodup_cons] at hnd
    rcases List.mem_cons.mp hm with h | h
    · subst h
      simp [lookupP]
    · have hk : k ≠ e.1 := by
        intro hk
        exact hnd.1 (hk ▸ List.mem_map_of_mem Prod.fst h)
      simp only [lookupP, if_neg hk]
      exact ih hnd.2 h

theorem lookupSyscall_setSyscall_self (m : List (Nat × Nat)) (gid v : Nat) :
    lookupSyscall (setSyscall m gid v) gid = v := by
  induction m with
  | nil => simp [setSyscall, lookupSyscall]
  | cons e rest ih =>
    obtain ⟨k, v0⟩ := e
    by_cases h : k = gid <;> simp [setSyscall, lookupSyscall, h, ih]

theorem contains_markAssistInsert_self (s : List Nat) (gid : Nat) :
    (markAssistInsert s gid).contains gid = true := by
  unfold markAssistInsert
  by_cases h : s.contains gid = true
  · rw [if_pos h]
    exact h
  · rw [if_neg h]
    simp

theorem contains_markAssistDelete_self (s : List Nat) (gid : Nat) :
    (markAssistDelete s gid).contains gid = false := by
  unfold markAssistDelete
  simp only [List.contains_eq_any_beq, List.any_eq_false]
  intro x hx
  have := List.of_mem_filter hx
  simp only [decide_eq_true_eq] at this
  simpa using Ne.symm this

/-! ## Lemmas about the span-list helpers -/

theorem appendEventToLast_shape (ev : Event) (l : List Span) :
    (appendEventToLast ev l).map spanShape = l.map spanShape := by
  induction l with
  | nil => rfl
  | cons s rest ih =>
    cases rest with
    | nil => simp [appendEventToLast, spanShape]
    | cons t r2 => simpa [appendEventToLast] using ih

theorem closeLast_isSome (t : Int) (l : List Span) (h : l ≠ []) :
    ∃ l2, closeLast t l = some l2 := by
  induction l with
  | nil => simp at h
  | cons s rest ih =>
    cases rest with
    | nil => exact ⟨_, rfl⟩
    | cons u r2 =>
      obtain ⟨l2, hl2⟩ := ih (by simp)
      exact ⟨s :: l2, by simp [closeLast, hl2]⟩

theorem closeLast_map_shape (t : Int) (l l2 : List Span) (h : closeLast t l = some l2) :
    l2.map spanShape = setLastEndSh t (l.map spanShape) := by
  induction l generalizing l2 with
  | nil => simp [closeLast] at h
  | cons s rest ih =>
    cases rest with
    | nil =>
      simp only [closeLast] at h
      cases h
      simp [setLastEndSh, spanShape]
    | cons u r2 =>
      cases h3 : closeLast t (u :: r2) with
      | none => simp [closeLast, h3] at h
      | some l3 =>
        simp only [closeLast, h3, Option.map_some'] at h
        cases h
        have := ih l3 h3
        simp only [List.map_cons, this]
        rfl

theorem closeLast_append (t : Int) (l : List Span) (s : Span) :
    closeLast t (l ++ [s]) = some (l ++ [{ s with End := t }]) := by
  induction l with
  | nil => rfl
  | cons u rest ih =>
    cases h2 : rest ++ [s] with
    | nil => exact absurd h2 (by simp)
    | cons v r2 =>
      simp only [List.cons_append, closeLast, h2]
      rw [← h2, ih]
      rfl

theorem setLastEndSh_append (t : Int) (l : List SpanSh) (x : SpanSh) :
    setLastEndSh t (l ++ [x]) = l ++ [(x.1, t, x.2.2)] := by
  induction l with
  | nil => rfl
  | cons u rest ih =>
    cases h2 : rest ++ [x] with
    | nil => exact absurd h2 (by simp)
    | cons v r2 =>
      simp only [List.cons_append, setLastEndSh, h2]
      rw [← h2, ih]

/-! ## Claim C9: the At-advancement bounds -/

theorem advanceAtCompactGo_le (pcs : Nat → String) (stack : List Nat) :
    ∀ fuel a, a ≤ 255 → advanceAtCompactGo pcs stack fuel a ≤ 255 := by
  intro fuel
  induction fuel with
  | zero => intro a h; exact h
  | succ n ih =>
    intro a h
    simp only [advanceAtCompactGo]
    split
    · next hc => exact ih (a + 1) (by omega)
    · exact h

theorem advanceAtCompactGo_bound (pcs : Nat → String) (stack : List Nat) :
    ∀ fuel a, advanceAtCompactGo pcs stack fuel a = a ∨
      advanceAtCompactGo pcs stack fuel a < stack.length := by
  intro fuel
  induction fuel with
  | zero => intro a; left; rfl
  | succ n ih =>
    intro a
    simp only [advanceAtCompactGo]
    split
    · next hc =>
      rcases ih (a + 1) with h | h
      · right; rw [h]; exact hc.1
      · right; exact h
    · left; rfl

theorem advanceAtCompactGo_skips (pcs : Nat → String) (stack : List Nat) :
    ∀ fuel a j, a ≤ j → j < advanceAtCompactGo pcs stack fuel a →
      goHasPre (pcs (stack.getD j 0)) "runtime." = true := by
  intro fuel
  induction fuel with
  | zero =>
    intro a j haj hj
    simp only [advanceAtCompactGo] at hj
    exact absurd hj (by omega)
  | succ n ih =>
    intro a j haj hj
    simp only [advanceAtCompactGo] at hj
    by_cases hc : a + 1 < stack.length ∧ a < 255 ∧ goHasPre (pcs (stack.getD a 0)) "runtime." = true
    · rw [if_pos hc] at hj
      rcases Nat.eq_or_lt_of_le haj with heq | hlt
      · subst heq; exact hc.2.2
      · exact ih (a + 1) j hlt hj
    · rw [if_neg hc] at hj
      exact absurd hj (by omega)

/-- C9: during finalization, the compact loader's `at`-advancement only
skips leading frames whose function name starts with `runtime.`, and the
resulting offset never exceeds the byte cap 255 nor (unless it did not
move at all) the stack's depth. -/
theorem claim_c9 (pcs : Nat → String) (stack : List Nat) (a : Nat) :
    (a ≤ 255 → advanceAtCompact pcs stack a ≤ 255) ∧
    (advanceAtCompact pcs stack a = a ∨ advanceAtCompact pcs stack a < stack.length) ∧
    (∀ j, a ≤ j → j < advanceAtCompact pcs stack a →
      goHasPre (pcs (stack.getD j 0)) "runtime." = true) :=
  ⟨fun h => advanceAtCompactGo_le pcs stack _ a h,
   advanceAtCompactGo_bound pcs stack _ a,
   fun j h1 h2 => advanceAtCompactGo_skips pcs stack _ a j h1 h2⟩

theorem claim_c9_witness :
    (0 : Nat) ≤ 255 ∧ advanceAtCompact (fun _ => "runtime.go") [1, 2, 3] 0 ≤ 255 :=
  ⟨by norm_num, (claim_c9 (fun _ => "runtime.go") [1, 2, 3] 0).1 (by norm_num)⟩

/-! ## Claim C10: the packed 5-byte event references -/

theorem or_shl_eq_add (x y n : Nat) (hx : x < 2 ^ n) : x ||| y <<< n = x + y * 2 ^ n := by
  rw [Nat.shiftLeft_eq, Nat.lor_comm, Nat.mul_comm y (2 ^ n), ← Nat.mul_add_lt_is_or hx y]
  omega

/-- C10: every event id below `2^40` survives the `packEventID` /
`Span.event()` round trip, and `fromUint40` agrees except on the all-0xFF
encoding `2^40 - 1`, which decodes to the sentinel -1. -/
theorem claim_c10 (id : Nat) (h : id < 2 ^ 40) :
    eventOfPacked (packEventID id) = id ∧
    (id ≠ 2 ^ 40 - 1 → fromUint40 (packEventID id) = Int.ofNat id) ∧
    fromUint40 (packEventID (2 ^ 40 - 1)) = -1 := by
  have h8 : id % 256 < 2 ^ 8 := by omega
  have h16 : id % 256 + id >>> 8 % 256 * 2 ^ 8 < 2 ^ 16 := by
    have : id >>> 8 % 256 < 256 := by omega
    omega
  have h24 : id % 256 + id >>> 8 % 256 * 2 ^ 8 + id >>> 16 % 256 * 2 ^ 16 < 2 ^ 24 := by
    have : id >>> 16 % 256 < 256 := by omega
    omega
  have h32 : id % 256 + id >>> 8 % 256 * 2 ^ 8 + id >>> 16 % 256 * 2 ^ 16 +
      id >>> 24 % 256 * 2 ^ 24 < 2 ^ 32 := by
    have : id >>> 24 % 256 < 256 := by omega
    omega
  have main : eventOfPacked (packEventID id) = id := by
    simp only [packEventID, eventOfPacked]
    rw [or_shl_eq_add (id % 256) (id >>> 8 % 256) 8 h8,
      or_shl_eq_add _ (id >>> 16 % 256) 16 h16,
      or_shl_eq_add _ (id >>> 24 % 256) 24 h24,
      or_shl_eq_add _ (id >>> 32 % 256) 32 h32]
    simp only [Nat.shiftRight_eq_div_pow]
    omega
  refine ⟨main, ?_, by decide⟩
  intro hne
  unfold fromUint40
  rw [if_neg ?hcond]
  · rw [main]
  case hcond =>
    intro heq
    unfold packEventID at heq
    simp only [List.cons.injEq, and_true] at heq
    simp only [Nat.shiftRight_eq_div_pow] at heq
    omega

/-! ## The commit path of the event loop -/

theorem commitSpan_ok_spans (st : LoadState) (ev : Event) (gid : Nat) (state : schedulingState)
    (reason : String) (pst : PState) (st1 : LoadState)
    (h : commitSpan st ev gid state reason pst = .ok st1) :
    (getG st1.gs gid).Spans = (getG st.gs gid).Spans ++
      [mkSpan ev state reason
        (if ev.typ = .EvGoSysBlock then lookupSyscall st.lastSyscall ev.G else ev.StkID)] ∧
    st1.inMarkAssist = st.inMarkAssist ∧
    st1.lastSyscall = st.lastSyscall ∧
    st1.gc = st.gc ∧
    st1.stw = st.stw ∧
    (∀ k, k ≠ gid → getG st1.gs k = getG st.gs k) := by
  by_cases htyp : ev.typ = .EvGoSysBlock <;>
    simp only [commitSpan, htyp, if_true, if_false, reduceIte] at h ⊢ <;>
    · split at h
      · split at h
        · cases h
          exact ⟨by simp [getG_setG_self], rfl, rfl, rfl, rfl,
            fun k hk => by simp [getG_setG_ne _ _ _ _ hk]⟩
        · cases h
          exact ⟨by simp [getG_setG_self], rfl, rfl, rfl, rfl,
            fun k hk => by simp [getG_setG_ne _ _ _ _ hk]⟩
        · split at h
          · exact absurd h (by simp)
          · cases h
            exact ⟨by simp [getG_setG_self], rfl, rfl, rfl, rfl,
              fun k hk => by simp [getG_setG_ne _ _ _ _ hk]⟩
      · exact absurd h (by simp)

/-! ## Claim C2: transition legality is enforced -/

/-- C2: whenever the per-event dispatch commits a new scheduling state for
a goroutine that already has spans and the trace-start carve-out does not
apply, a (previous state, new state) pair absent from
`legalStateTransitions` makes the event loop abort with the
illegal-transition panic; in particular Blocked to Blocked is absent from
the table, and an aborted event aborts the whole run. -/
theorem claim_c2 :
    (∀ (res : ParseResult) (st : LoadState) (ev : Event) (gid : Nat)
        (state : schedulingState) (reason : String) (pst : PState) (st1 : LoadState) (prev : Span),
      dispatch res st ev = .commit gid state reason pst st1 →
      ((getG st1.gs gid).Spans).getLast? = some prev →
      traceStartCarveOut ev ((getG st1.gs gid).Spans) = false →
      legalStateTransitions prev.State state = false →
      processEvent res st ev = .error "illegal state transition") ∧
    legalStateTransitions stateBlocked stateBlocked = false ∧
    (∀ (res : ParseResult) (st : LoadState) (ev : Event) (evs : List Event) (m : String),
      processEvent res st ev = .error m → runEvents res st (ev :: evs) = .error m) := by
  refine ⟨?_, by decide, ?_⟩
  · intro res st ev gid state reason pst st1 prev hdisp hlast hcarve hlegal
    simp only [processEvent, hdisp]
    unfold commitSpan
    simp [hlast, hcarve, hlegal]
  · intro res st ev evs m herr
    simp [runEvents, herr]

theorem claim_c2_witness :
    dispatch (res0 []) stBlocked evBlockAgain = .commit 1 stateBlocked "" .pStopG stBlocked ∧
    ((getG stBlocked.gs 1).Spans).getLast? = some (mkSpan ev0 stateBlocked "" 0) ∧
    traceStartCarveOut evBlockAgain ((getG stBlocked.gs 1).Spans) = false ∧
    legalStateTransitions stateBlocked stateBlocked = false ∧
    processEvent (res0 []) stBlocked evBlockAgain = .error "illegal state transition" :=
  ⟨by decide, by decide, by decide, by decide,
   claim_c2.1 (res0 []) stBlocked evBlockAgain 1 stateBlocked "" .pStopG stBlocked
     (mkSpan ev0 stateBlocked "" 0) (by decide) (by decide) (by decide) (by decide)⟩

/-! ## Claim C3: GC-done blindly closes the last-appended GC span -/

/-- C3 counterexample: the event sequence GCStart, GCStart, GCDone does
not raise any error; construction succeeds, the second GC span is
silently closed at t = 3 and the first remains open (end 0). -/
theorem claim_c3_counterexample :
    loadTrace (res0 evsGCNested) = .ok (resultTrace (loadTrace (res0 evsGCNested))) ∧
    ((resultTrace (loadTrace (res0 evsGCNested))).GC.map fun s => (s.Start, s.End)) =
      [(1, 0), (2, 3)] := by
  constructor
  · decide
  · decide

/-- C3 amended: a GC-done event unconditionally sets the end of the
last-appended GC span, whether or not that span is still open (so two
starts followed by one done silently close the second span), and it is a
hard (index-out-of-range) failure only when no GC span exists at all. -/
theorem claim_c3 (res : ParseResult) (st : LoadState) (ev : Event) (htyp : ev.typ = .EvGCDone) :
    (st.gc = [] → processEvent res st ev = .error "index out of range") ∧
    (∀ (l : List Span) (s : Span), st.gc = l ++ [s] →
      processEvent res st ev = .ok { st with gc := l ++ [{ s with End := ev.Ts }] }) := by
  constructor
  · intro hempty
    simp [processEvent, dispatch, htyp, hempty, closeLast]
  · intro l s hgc
    simp [processEvent, dispatch, htyp, hgc, closeLast_append]

theorem claim_c3_witness :
    evGCDone3.typ = .EvGCDone ∧
    stGCOne.gc = [] ++ [mkSpan ev0 stateActive "" 0] ∧
    processEvent (res0 []) stGCOne evGCDone3 =
      .ok { stGCOne with gc := [] ++ [{ mkSpan ev0 stateActive "" 0 with End := evGCDone3.Ts }] } :=
  ⟨by decide, by decide,
   (claim_c3 (res0 []) stGCOne evGCDone3 (by decide)).2 [] (mkSpan ev0 stateActive "" 0) (by decide)⟩

/-! ## Claim C6: the Blocked-to-Inactive downgrade -/

/-- C6 counterexample: a typed block event (blocked on channel receive)
for a goroutine created by the allow-listed `runtime.bgsweep` keeps its
specific blocked state; it is not downgraded to Inactive. -/
theorem claim_c6_counterexample :
    blockedIsInactive "runtime.bgsweep" = true ∧
    (getG stBgsweep.gs 5).Function = "runtime.bgsweep" ∧
    evBlockRecv.typ = .EvGoBlockRecv ∧
    (processEvent (res0 []) stBgsweep evBlockRecv).toOption.map
      (fun st => ((getG st.gs 5).Spans.map Span.State).getLast?) =
      some (some stateBlockedRecv) ∧
    stateBlockedRecv ≠ stateInactive := by
  refine ⟨by decide, by decide, by decide, by decide, by decide⟩

/-- C6 amended: only the unspecified block event (`EvGoBlock`) and the
blocked-at-trace-start event (`EvGoWaiting`) consult the
`blockedIsInactive` allow-list (exactly the five runtime background
goroutines) and downgrade Blocked to Inactive; the typed block events
keep their specific states. -/
theorem claim_c6 :
    (∀ fn, blockedIsInactive fn = true ↔
      fn = "runtime.gcBgMarkWorker" ∨ fn = "runtime.forcegchelper" ∨ fn = "runtime.bgsweep" ∨
      fn = "runtime.bgscavenge" ∨ fn = "runtime.runfinq") ∧
    (∀ (res : ParseResult) (st : LoadState) (ev : Event) (g : Goroutine),
      lookupG st.gs ev.G = some g →
      (ev.typ = .EvGoBlock →
        dispatch res st ev = .commit ev.G
          (if blockedIsInactive g.Function then stateInactive else stateBlocked) "" .pStopG st) ∧
      (ev.typ = .EvGoWaiting →
        dispatch res st ev = .commit ev.G
          (if blockedIsInactive g.Function then stateInactive else stateBlocked) "" .pNone st)) := by
  constructor
  · intro fn
    unfold blockedIsInactive
    split_ifs with h1 h2 h3 h4 h5 h6 <;> simp_all
  · intro res st ev g hg
    constructor <;> intro htyp <;> simp [dispatch, htyp, hg]

theorem claim_c6_witness :
    lookupG stBgsweep.gs 5 = some gBgsweep ∧
    evGoBlockW.typ = .EvGoBlock ∧
    dispatch (res0 []) stBgsweep evGoBlockW = .commit 5
      (if blockedIsInactive gBgsweep.Function then stateInactive else stateBlocked)
      "" .pStopG stBgsweep :=
  ⟨by decide, by decide,
   ((claim_c6.2 (res0 []) stBgsweep evGoBlockW gBgsweep (by decide)).1 (by decide))⟩

/-! ## Claim C7: mark assist drives goroutine-start states -/

/-- C7: a goroutine-start event commits state GCMarkAssist exactly when
the goroutine is in the in-progress mark-assist set (and Active
otherwise), and mark-assist start/done events add/remove the goroutine
from that set. -/
theorem claim_c7 (res : ParseResult) (st : LoadState) (ev : Event) :
    (ev.typ = .EvGoStart →
      dispatch res st ev = .commit ev.G
        (if st.inMarkAssist.contains ev.G then stateGCMarkAssist else stateActive) "" .pRunG st) ∧
    (∀ st1, ev.typ = .EvGoStart → processEvent res st ev = .ok st1 →
      (getG st1.gs ev.G).Spans = (getG st.gs ev.G).Spans ++
        [mkSpan ev (if st.inMarkAssist.contains ev.G then stateGCMarkAssist else stateActive)
          "" ev.StkID]) ∧
    (∀ st1, ev.typ = .EvGCMarkAssistStart → processEvent res st ev = .ok st1 →
      st1.inMarkAssist.contains ev.G = true) ∧
    (∀ st1, ev.typ = .EvGCMarkAssistDone → processEvent res st ev = .ok st1 →
      st1.inMarkAssist.contains ev.G = false) := by
  refine ⟨?_, ?_, ?_, ?_⟩
  · intro htyp
    by_cases hm : st.inMarkAssist.contains ev.G = true <;> simp [dispatch, htyp, hm]
  · intro st1 htyp hok
    simp only [processEvent, dispatch, htyp] at hok
    have hspans := (commitSpan_ok_spans _ _ _ _ _ _ _ hok).1
    rw [hspans]
    have : ev.typ ≠ .EvGoSysBlock := by rw [htyp]; intro hc; cases hc
    simp [this]
  · intro st1 htyp hok
    simp only [processEvent, dispatch, htyp] at hok
    have hma := (commitSpan_ok_spans _ _ _ _ _ _ _ hok).2.1
    rw [hma]
    exact contains_markAssistInsert_self _ _
  · intro st1 htyp hok
    simp only [processEvent, dispatch, htyp] at hok
    have hma := (commitSpan_ok_spans _ _ _ _ _ _ _ hok).2.1
    rw [hma]
    exact contains_markAssistDelete_self _ _

theorem claim_c7_witness :
    evGoStart5.typ = .EvGoStart ∧
    stMarkAssist.inMarkAssist.contains 5 = true ∧
    processEvent (res0 []) stMarkAssist evGoStart5 =
      .ok (resultLoadState (processEvent (res0 []) stMarkAssist evGoStart5)) ∧
    (getG (resultLoadState (processEvent (res0 []) stMarkAssist evGoStart5)).gs 5).Spans =
      (getG stMarkAssist.gs 5).Spans ++
        [mkSpan evGoStart5
          (if stMarkAssist.inMarkAssist.contains 5 then stateGCMarkAssist else stateActive)
          "" 0] :=
  ⟨by decide, by decide, by decide,
   (claim_c7 (res0 []) stMarkAssist evGoStart5).2.1 _ (by decide) (by decide)⟩

/-! ## Claim C8: side events on goroutines with no open span -/

/-- C8: recording an allow-listed side event (goroutine creation by
another goroutine, unblock, syscall entry, user log) against the current
span of a goroutine that has no spans is a silent no-op for goroutine id
0 and a panic (failed construction) for any other id. -/
theorem claim_c8 :
    (∀ (gs : List (Nat × Goroutine)) (ev : Event), addEventToCurrentSpan gs 0 ev = .ok gs) ∧
    (∀ (gs : List (Nat × Goroutine)) (gid : Nat) (ev : Event), gid ≠ 0 →
      (getG gs gid).Spans = [] →
      addEventToCurrentSpan gs gid ev = .error "tried to add event, but goroutine has no spans") ∧
    (∀ (res : ParseResult) (st : LoadState) (ev : Event),
      (ev.typ = .EvGoCreate ∨ ev.typ = .EvGoUnblock ∨ ev.typ = .EvGoSysCall ∨
        ev.typ = .EvUserLog) →
      ev.G ≠ 0 → (getG st.gs ev.G).Spans = [] →
      processEvent res st ev = .error "tried to add event, but goroutine has no spans") ∧
    (∀ (res : ParseResult) (st : LoadState) (ev : Event), ev.typ = .EvUserLog → ev.G = 0 →
      processEvent res st ev = .ok st) := by
  have haecs : ∀ (gs : List (Nat × Goroutine)) (gid : Nat) (ev : Event), gid ≠ 0 →
      (getG gs gid).Spans = [] →
      addEventToCurrentSpan gs gid ev = .error "tried to add event, but goroutine has no spans" := by
    intro gs gid ev hne hempty
    simp [addEventToCurrentSpan, hne, hempty]
  refine ⟨fun gs ev => by simp [addEventToCurrentSpan], haecs, ?_, ?_⟩
  · intro res st ev htyp hne hempty
    rcases htyp with htyp | htyp | htyp | htyp <;>
      simp [processEvent, dispatch, htyp, hne, haecs st.gs ev.G ev hne hempty]
  · intro res st ev htyp hzero
    simp [processEvent, dispatch, htyp, hzero, addEventToCurrentSpan]

theorem claim_c8_witness :
    (evUserLog7.typ = .EvGoCreate ∨ evUserLog7.typ = .EvGoUnblock ∨
      evUserLog7.typ = .EvGoSysCall ∨ evUserLog7.typ = .EvUserLog) ∧
    evUserLog7.G ≠ 0 ∧
    (getG initLoadState.gs evUserLog7.G).Spans = [] ∧
    processEvent (res0 []) initLoadState evUserLog7 =
      .error "tried to add event, but goroutine has no spans" :=
  ⟨by decide, by decide, by decide,
   claim_c8.2.2.1 (res0 []) initLoadState evUserLog7 (by decide) (by decide) (by decide)⟩

theorem claim_c10_witness :
    (12345 : Nat) < 2 ^ 40 ∧ eventOfPacked (packEventID 12345) = 12345 :=
  ⟨by norm_num, (claim_c10 12345 (by norm_num)).1⟩

/-! ## Claim C4: the syscall stack hand-off -/

theorem getLast?_append_singleton {α : Type} (l : List α) (a : α) :
    (l ++ [a]).getLast? = some a := by
  induction l with
  | nil => rfl
  | cons x rest ih =>
    cases hr : rest ++ [a] with
    | nil => exact absurd hr (by simp)
    | cons y t =>
      rw [List.cons_append, hr, List.getLast?_cons_cons, ← hr, ih]

theorem addEventToCurrentSpan_shape (gs gs1 : List (Nat × Goroutine)) (gid : Nat) (ev : Event)
    (h : addEventToCurrentSpan gs gid ev = .ok gs1) :
    ∀ k, ((getG gs1 k).Spans).map spanShape = ((getG gs k).Spans).map spanShape := by
  by_cases h0 : gid = 0
  · simp only [addEventToCurrentSpan, if_pos h0] at h
    cases h
    intro k
    rfl
  · simp only [addEventToCurrentSpan, if_neg h0] at h
    split at h
    · exact absurd h (by simp)
    · cases h
      intro k
      by_cases hk : k = gid
      · subst hk
        rw [getG_setG_self]
        simp [appendEventToLast_shape]
      · rw [getG_setG_ne _ _ _ _ hk]

theorem addEventToCurrentSpan_nodup (gs gs1 : List (Nat × Goroutine)) (gid : Nat) (ev : Event)
    (h : addEventToCurrentSpan gs gid ev = .ok gs1)
    (hnd : (gs.map Prod.fst).Nodup) : (gs1.map Prod.fst).Nodup := by
  by_cases h0 : gid = 0
  · simp only [addEventToCurrentSpan, if_pos h0] at h
    cases h
    exact hnd
  · simp only [addEventToCurrentSpan, if_neg h0] at h
    split at h
    · exact absurd h (by simp)
    · cases h
      exact setG_keys_nodup _ _ _ hnd

/-- C4: a syscall-entry event opens and closes no span (every goroutine's
span shapes and every processor are untouched) and only records the
event's stack in the per-goroutine `lastSyscall` map; the next
syscall-block event for the same goroutine appends a BlockedSyscall span
whose stack reference is the recorded syscall-entry stack, not the block
event's own stack. -/
theorem claim_c4 (res : ParseResult) (st st1 st2 : LoadState) (ev1 ev2 : Event)
    (h1 : ev1.typ = .EvGoSysCall) (h2 : ev2.typ = .EvGoSysBlock) (hG : ev2.G = ev1.G)
    (hok1 : processEvent res st ev1 = .ok st1) (hok2 : processEvent res st1 ev2 = .ok st2) :
    (∀ k, ((getG st1.gs k).Spans).map spanShape = ((getG st.gs k).Spans).map spanShape) ∧
    st1.ps = st.ps ∧
    lookupSyscall st1.lastSyscall ev1.G = ev1.StkID ∧
    ∃ s, ((getG st2.gs ev2.G).Spans).getLast? = some s ∧
      s.State = stateBlockedSyscall ∧ s.Stack = ev1.StkID := by
  simp only [processEvent, dispatch, h1] at hok1
  rcases haecs : addEventToCurrentSpan st.gs ev1.G ev1 with m | gs1
  · rw [haecs] at hok1
    exact absurd hok1 (by simp)
  · rw [haecs] at hok1
    cases hok1
    refine ⟨addEventToCurrentSpan_shape _ _ _ _ haecs, rfl, ?_, ?_⟩
    · exact lookupSyscall_setSyscall_self _ _ _
    · simp only [processEvent, dispatch, h2] at hok2
      obtain ⟨hsp, -⟩ := commitSpan_ok_spans _ _ _ _ _ _ _ hok2
      rw [hsp, getLast?_append_singleton]
      refine ⟨_, rfl, ?_, ?_⟩
      · rfl
      · simp only [mkSpan, h2, reduceIte, hG]
        exact lookupSyscall_setSyscall_self _ _ _

theorem claim_c4_witness :
    evSysCallW.typ = .EvGoSysCall ∧ evSysBlockW.typ = .EvGoSysBlock ∧
    evSysBlockW.G = evSysCallW.G ∧
    processEvent resSysW stSysA evSysCallW = .ok stSysB ∧
    processEvent resSysW stSysB evSysBlockW = .ok stSysC ∧
    (lookupSyscall stSysB.lastSyscall evSysCallW.G = evSysCallW.StkID ∧
      ∃ s, ((getG stSysC.gs evSysBlockW.G).Spans).getLast? = some s ∧
        s.State = stateBlockedSyscall ∧ s.Stack = evSysCallW.StkID) := by
  refine ⟨by decide, by decide, by decide, by decide, by decide, ?_⟩
  have h := claim_c4 resSysW stSysA stSysB stSysC evSysCallW evSysBlockW
    (by decide) (by decide) (by decide) (by decide) (by decide)
  exact ⟨h.2.2.1, h.2.2.2⟩

/-! ## Dispatch preserves all span structure -/

theorem GsPreserves_refl (gs : List (Nat × Goroutine)) : GsPreserves gs gs :=
  ⟨fun _ => rfl, fun x => x⟩

theorem GsPreserves_trans {a b c : List (Nat × Goroutine)}
    (h1 : GsPreserves a b) (h2 : GsPreserves b c) : GsPreserves a c :=
  ⟨fun k => (h2.1 k).trans (h1.1 k), fun x => h2.2 (h1.2 x)⟩

theorem GsPreserves_aecs {gs gs1 : List (Nat × Goroutine)} {gid : Nat} {ev : Event}
    (haecs : addEventToCurrentSpan gs gid ev = .ok gs1) : GsPreserves gs gs1 :=
  ⟨addEventToCurrentSpan_shape _ _ _ _ haecs, addEventToCurrentSpan_nodup _ _ _ _ haecs⟩

theorem GsPreserves_setFunction (gs : List (Nat × Goroutine)) (gid : Nat) (f : String) :
    GsPreserves gs (setG gs gid { getG gs gid with Function := f }) := by
  constructor
  · intro k
    by_cases hk : k = gid
    · subst hk
      rw [getG_setG_self]
    · rw [getG_setG_ne _ _ _ _ hk]
  · exact setG_keys_nodup _ _ _

theorem dispatch_skip_preserves (res : ParseResult) (st : LoadState) (ev : Event)
    (st1 : LoadState) (h : dispatch res st ev = .skip st1) : StepPreserves st st1 := by
  cases htyp : ev.typ
  case EvGoSysCall =>
    simp only [dispatch, htyp] at h
    rcases haecs : addEventToCurrentSpan st.gs ev.G ev with m | gs1 <;> rw [haecs] at h <;>
      cases h
    exact ⟨GsPreserves_aecs haecs, rfl⟩
  case EvUserLog =>
    simp only [dispatch, htyp] at h
    rcases haecs : addEventToCurrentSpan st.gs ev.G ev with m | gs1 <;> rw [haecs] at h <;>
      cases h
    exact ⟨GsPreserves_aecs haecs, rfl⟩
  case EvGCDone =>
    simp only [dispatch, htyp] at h
    rcases hcl : closeLast ev.Ts st.gc with _ | gc1 <;> rw [hcl] at h <;> cases h
    exact ⟨GsPreserves_refl _, rfl⟩
  case EvGCSTWDone =>
    simp only [dispatch, htyp] at h
    rcases hcl : closeLast ev.Ts st.stw with _ | stw1 <;> rw [hcl] at h <;> cases h
    exact ⟨GsPreserves_refl _, rfl⟩
  case EvGoCreate =>
    simp only [dispatch, htyp] at h
    split at h <;> cases h
  case EvGoBlock =>
    simp only [dispatch, htyp] at h
    split at h <;> cases h
  case EvGoWaiting =>
    simp only [dispatch, htyp] at h
    split at h <;> cases h
  case EvGoUnblock =>
    simp only [dispatch, htyp] at h
    split at h <;> cases h
  all_goals simp only [dispatch, htyp] at h
  all_goals cases h <;> exact ⟨GsPreserves_refl _, rfl⟩

theorem dispatch_commit_preserves (res : ParseResult) (st : LoadState) (ev : Event)
    (gid : Nat) (state : schedulingState) (reason : String) (pst : PState) (st1 : LoadState)
    (h : dispatch res st ev = .commit gid state reason pst st1) : StepPreserves st st1 := by
  cases htyp : ev.typ
  case EvGoCreate =>
    simp only [dispatch, htyp] at h
    split at h
    · cases h
    · rename_i stA heq
      cases h
      have hpres : GsPreserves st.gs stA.gs ∧ stA.ps = st.ps := by
        by_cases hg : ev.G ≠ 0
        · rw [if_pos hg] at heq
          rcases haecs : addEventToCurrentSpan st.gs ev.G ev with m | gs1 <;> rw [haecs] at heq <;>
            cases heq
          exact ⟨GsPreserves_aecs haecs, rfl⟩
        · rw [if_neg hg] at heq
          cases heq
          exact ⟨GsPreserves_refl _, rfl⟩
      by_cases harg : ev.arg1 ≠ 0
      · rw [if_pos harg]
        rcases hstk : res.Stacks ev.arg1 with _ | ⟨pc, rest⟩
        · exact ⟨hpres.1, hpres.2⟩
        · exact ⟨GsPreserves_trans hpres.1 (GsPreserves_setFunction _ _ _), hpres.2⟩
      · rw [if_neg harg]
        exact ⟨hpres.1, hpres.2⟩
  case EvGoBlock =>
    simp only [dispatch, htyp] at h
    rcases hlk : lookupG st.gs ev.G with _ | g <;> rw [hlk] at h <;> cases h
    exact ⟨GsPreserves_refl _, rfl⟩
  case EvGoWaiting =>
    simp only [dispatch, htyp] at h
    rcases hlk : lookupG st.gs ev.G with _ | g <;> rw [hlk] at h <;> cases h
    exact ⟨GsPreserves_refl _, rfl⟩
  case EvGoUnblock =>
    simp only [dispatch, htyp] at h
    rcases haecs : addEventToCurrentSpan st.gs ev.G ev with m | gs1 <;> rw [haecs] at h <;>
      cases h
    exact ⟨GsPreserves_aecs haecs, rfl⟩
  case EvGoSysCall =>
    simp only [dispatch, htyp] at h
    rcases haecs : addEventToCurrentSpan st.gs ev.G ev with m | gs1 <;> rw [haecs] at h <;>
      cases h
  case EvUserLog =>
    simp only [dispatch, htyp] at h
    rcases haecs : addEventToCurrentSpan st.gs ev.G ev with m | gs1 <;> rw [haecs] at h <;>
      cases h
  case EvGCDone =>
    simp only [dispatch, htyp] at h
    rcases hcl : closeLast ev.Ts st.gc with _ | gc1 <;> rw [hcl] at h <;> cases h
  case EvGCSTWDone =>
    simp only [dispatch, htyp] at h
    rcases hcl : closeLast ev.Ts st.stw with _ | stw1 <;> rw [hcl] at h <;> cases h
  all_goals simp only [dispatch, htyp] at h
  all_goals cases h <;> exact ⟨GsPreserves_refl _, rfl⟩

/-! ## Shape-invariant lemmas -/

theorem mem_of_getLast?' {α : Type} {l : List α} {a : α} (h : l.getLast? = some a) : a ∈ l := by
  induction l with
  | nil => simp [List.getLast?] at h
  | cons x rest ih =>
    cases rest with
    | nil =>
      simp only [List.getLast?_singleton, Option.some.injEq] at h
      simp [h]
    | cons y t =>
      rw [List.getLast?_cons_cons] at h
      exact List.mem_cons_of_mem _ (ih h)

theorem getLast?_map' {α β : Type} (f : α → β) (l : List α) :
    (l.map f).getLast? = (l.getLast?).map f := by
  induction l with
  | nil => rfl
  | cons x rest ih =>
    cases rest with
    | nil => rfl
    | cons y t =>
      simp only [List.map_cons, List.getLast?_cons_cons] at ih ⊢
      exact ih

theorem GStartsInv_mono {l : List SpanSh} {b t : Int} (h : GStartsInv l b) (hbt : b ≤ t) :
    GStartsInv l t :=
  ⟨h.1, fun x hx => ⟨(h.2 x hx).1, le_trans (h.2 x hx).2 hbt⟩⟩

theorem PShInv_mono {l : List SpanSh} {b t : Int} (h : PShInv l b) (hbt : b ≤ t) :
    PShInv l t := by
  refine ⟨h.1, fun x hx => ?_, h.2.2⟩
  obtain ⟨h1, h2, h3, h4⟩ := h.2.1 x hx
  exact ⟨h1, le_trans h2 hbt, h3, le_trans h4 hbt⟩

theorem GStartsInv_append {l : List SpanSh} {b t : Int} (x : SpanSh)
    (h : GStartsInv l b) (hbt : b ≤ t) (h0 : 0 ≤ t) (hx : x.1 = t) :
    GStartsInv (l ++ [x]) t := by
  constructor
  · refine List.Chain'.append h.1 (List.chain'_singleton x) ?_
    intro a ha y hy
    simp only [List.head?_cons, Option.mem_def, Option.some.injEq] at hy
    subst hy
    rw [hx]
    exact le_trans (h.2 a (mem_of_getLast?' ha)).2 hbt
  · intro y hy
    rcases List.mem_append.mp hy with hy | hy
    · exact ⟨(h.2 y hy).1, le_trans (h.2 y hy).2 hbt⟩
    · simp only [List.mem_singleton] at hy
      subst hy
      rw [hx]
      exact ⟨h0, le_refl t⟩

theorem PShInv_append {l : List SpanSh} {b t : Int} (x : SpanSh)
    (h : PShInv l b) (hbt : b ≤ t) (h0 : 0 ≤ t) (hx1 : x.1 = t) (hx2 : x.2.1 = 0) :
    PShInv (l ++ [x]) t := by
  refine ⟨?_, ?_, ?_⟩
  · refine List.Chain'.append h.1 (List.chain'_singleton x) ?_
    intro a ha y hy
    simp only [List.head?_cons, Option.mem_def, Option.some.injEq] at hy
    subst hy
    rw [hx1]
    exact le_trans (h.2.1 a (mem_of_getLast?' ha)).2.1 hbt
  · intro y hy
    rcases List.mem_append.mp hy with hy | hy
    · obtain ⟨h1, h2, h3, h4⟩ := h.2.1 y hy
      exact ⟨h1, le_trans h2 hbt, h3, le_trans h4 hbt⟩
    · simp only [List.mem_singleton] at hy
      subst hy
      rw [hx1, hx2]
      exact ⟨h0, le_refl t, le_refl 0, h0⟩
  · refine List.Chain'.append h.2.2 (List.chain'_singleton x) ?_
    intro a ha y hy
    simp only [List.head?_cons, Option.mem_def, Option.some.injEq] at hy
    subst hy
    rw [hx1]
    exact le_trans (h.2.1 a (mem_of_getLast?' ha)).2.2.2 hbt

theorem PShInv_setLastEnd {l : List SpanSh} {b t : Int}
    (h : PShInv l b) (hbt : b ≤ t) (h0 : 0 ≤ t) :
    PShInv (setLastEndSh t l) t := by
  rcases List.eq_nil_or_concat l with rfl | ⟨init, u, rfl⟩
  · exact ⟨List.chain'_nil, by simp [setLastEndSh], List.chain'_nil⟩
  · rw [List.concat_eq_append] at h ⊢
    rw [setLastEndSh_append]
    have hchain1 := List.chain'_append.mp h.1
    have hchain2 := List.chain'_append.mp h.2.2
    have humem : u ∈ init ++ [u] := List.mem_append.mpr (Or.inr (by simp))
    have hub := h.2.1 u humem
    refine ⟨?_, ?_, ?_⟩
    · refine List.chain'_append.mpr ⟨hchain1.1, List.chain'_singleton _, ?_⟩
      intro a ha y hy
      simp only [List.head?_cons, Option.mem_def, Option.some.injEq] at hy
      subst hy
      exact hchain1.2.2 a ha u (by simp)
    · intro y hy
      rcases List.mem_append.mp hy with hy | hy
      · have hym : y ∈ init ++ [u] := List.mem_append.mpr (Or.inl hy)
        obtain ⟨h1, h2, h3, h4⟩ := h.2.1 y hym
        exact ⟨h1, le_trans h2 hbt, h3, le_trans h4 hbt⟩
      · simp only [List.mem_singleton] at hy
        subst hy
        exact ⟨hub.1, le_trans hub.2.1 hbt, h0, le_refl t⟩
    · refine List.chain'_append.mpr ⟨hchain2.1, List.chain'_singleton _, ?_⟩
      intro a ha y hy
      simp only [List.head?_cons, Option.mem_def, Option.some.injEq] at hy
      subst hy
      exact hchain2.2.2 a ha u (by simp)

theorem legal_source_not_done (s1 s2 : schedulingState)
    (h : legalStateTransitions s1 s2 = true) : s1 ≠ stateDone := by
  intro hc
  subst hc
  revert h
  cases s2 <;> decide

theorem carveOut_last_inactive (ev : Event) (spans : List Span)
    (h : traceStartCarveOut ev spans = true) :
    ∀ s ∈ spans.getLast?, s.State = stateInactive := by
  intro s hs
  unfold traceStartCarveOut at h
  rcases spans with _ | ⟨x, _ | ⟨y, t⟩⟩
  · cases h
  · simp only [List.getLast?_singleton, Option.mem_def, Option.some.injEq] at hs
    subst hs
    simp only [Bool.and_eq_true, decide_eq_true_eq] at h
    exact h.2
  · cases h

theorem DoneInv_appendSpan (gs : List (Nat × Goroutine)) (gid : Nat) (s : Span)
    (hD : DoneInv gs)
    (hlast : ∀ u ∈ ((getG gs gid).Spans).getLast?, u.State ≠ stateDone) :
    DoneInv (setG gs gid { getG gs gid with Spans := (getG gs gid).Spans ++ [s] }) := by
  intro k x hx
  by_cases hk : k = gid
  · subst hk
    rw [getG_setG_self] at hx
    simp only [List.map_append, List.map_cons, List.map_nil] at hx
    rw [List.dropLast_concat] at hx
    obtain ⟨sp, hsp, rfl⟩ := List.mem_map.mp hx
    rcases List.eq_nil_or_concat ((getG gs k).Spans) with hnil | ⟨init, u, hconc⟩
    · rw [hnil] at hsp
      cases hsp
    · rw [List.concat_eq_append] at hconc
      rw [hconc] at hsp
      rcases List.mem_append.mp hsp with hsp | hsp
      · have hmem : spanShape sp ∈ (((getG gs k).Spans).map spanShape).dropLast := by
          rw [hconc, List.map_append, List.map_cons, List.map_nil, List.dropLast_concat]
          exact List.mem_map_of_mem spanShape hsp
        exact hD k (spanShape sp) hmem
      · simp only [List.mem_singleton] at hsp
        subst hsp
        exact hlast sp (by rw [Option.mem_def, hconc, getLast?_append_singleton])
  · rw [getG_setG_ne _ _ _ _ hk] at hx
    exact hD k x hx

theorem commitSpan_inv (st : LoadState) (ev : Event) (gid : Nat) (state : schedulingState)
    (reason : String) (pst : PState) (st2 : LoadState)
    (h : commitSpan st ev gid state reason pst = .ok st2) :
    (DoneInv st.gs → DoneInv st2.gs) ∧
    (KeysInv st → KeysInv st2) ∧
    (∀ b, TimeInv st b → b ≤ ev.Ts → TimeInv st2 ev.Ts) := by
  simp only [commitSpan] at h
  split at h
  case isFalse => cases h
  case isTrue hok =>
    have hlast : ∀ u ∈ ((getG st.gs gid).Spans).getLast?, u.State ≠ stateDone := by
      split at hok
      · rename_i heq
        intro u hu
        rw [Option.mem_def, heq] at hu
        cases hu
      · rename_i prev heq
        intro u hu
        rw [Option.mem_def, heq] at hu
        cases hu
        rw [Bool.or_eq_true] at hok
        rcases hok with hc | hl
        · have hin := carveOut_last_inactive ev _ hc prev (by rw [Option.mem_def, heq])
          rw [hin]
          decide
        · exact legal_source_not_done _ _ hl
    have hgsDone : DoneInv st.gs → DoneInv (setG st.gs gid
        { getG st.gs gid with Spans := (getG st.gs gid).Spans ++
          [mkSpan ev state reason
            (if ev.typ = .EvGoSysBlock then lookupSyscall st.lastSyscall ev.G else ev.StkID)] }) :=
      fun hD => DoneInv_appendSpan _ _ _ hD hlast
    have hgsTime : ∀ b, TimeInv st b → b ≤ ev.Ts → ∀ k,
        GStartsInv (((getG (setG st.gs gid
          { getG st.gs gid with Spans := (getG st.gs gid).Spans ++
            [mkSpan ev state reason
              (if ev.typ = .EvGoSysBlock then lookupSyscall st.lastSyscall ev.G else ev.StkID)] })
            k).Spans).map spanShape) ev.Ts := by
      intro b hT hbt k
      by_cases hk : k = gid
      · subst hk
        rw [getG_setG_self]
        simp only [List.map_append, List.map_cons, List.map_nil]
        exact GStartsInv_append _ (hT.2.1 k) hbt (le_trans hT.1 hbt) rfl
      · rw [getG_setG_ne _ _ _ _ hk]
        exact GStartsInv_mono (hT.2.1 k) hbt
    split at h
    · -- pNone
      cases h
      refine ⟨hgsDone, fun hK => ⟨setG_keys_nodup _ _ _ hK.1, hK.2⟩, fun b hT hbt => ?_⟩
      exact ⟨le_trans hT.1 hbt, hgsTime b hT hbt, fun k => PShInv_mono (hT.2.2 k) hbt⟩
    · -- pRunG
      cases h
      refine ⟨hgsDone, fun hK => ⟨setG_keys_nodup _ _ _ hK.1, setP_keys_nodup _ _ _ hK.2⟩,
        fun b hT hbt => ?_⟩
      refine ⟨le_trans hT.1 hbt, hgsTime b hT hbt, fun k => ?_⟩
      by_cases hk : k = ev.P
      · subst hk
        rw [getP_setP_self]
        simp only [List.map_append]
        exact PShInv_append _ (hT.2.2 ev.P) hbt (le_trans hT.1 hbt) rfl rfl
      · rw [getP_setP_ne _ _ _ _ hk]
        exact PShInv_mono (hT.2.2 k) hbt
    · -- pStopG
      split at h
      · cases h
      · rename_i spans1 heq
        cases h
        refine ⟨hgsDone, fun hK => ⟨setG_keys_nodup _ _ _ hK.1, setP_keys_nodup _ _ _ hK.2⟩,
          fun b hT hbt => ?_⟩
        refine ⟨le_trans hT.1 hbt, hgsTime b hT hbt, fun k => ?_⟩
        by_cases hk : k = ev.P
        · subst hk
          rw [getP_setP_self]
          rw [closeLast_map_shape _ _ _ heq]
          exact PShInv_setLastEnd (hT.2.2 ev.P) hbt (le_trans hT.1 hbt)
        · rw [getP_setP_ne _ _ _ _ hk]
          exact PShInv_mono (hT.2.2 k) hbt

theorem processEvent_inv (res : ParseResult) (st st1 : LoadState) (ev : Event)
    (h : processEvent res st ev = .ok st1) :
    (DoneInv st.gs → DoneInv st1.gs) ∧
    (KeysInv st → KeysInv st1) ∧
    (∀ b, TimeInv st b → b ≤ ev.Ts → TimeInv st1 ev.Ts) := by
  unfold processEvent at h
  cases hd : dispatch res st ev <;> rw [hd] at h
  case skip stA =>
    cases h
    have hp := dispatch_skip_preserves res st ev st1 hd
    refine ⟨?_, ?_, ?_⟩
    · intro hD k x hx
      rw [hp.1.1 k] at hx
      exact hD k x hx
    · intro hK
      exact ⟨hp.1.2 hK.1, hp.2 ▸ hK.2⟩
    · intro b hT hbt
      refine ⟨le_trans hT.1 hbt, ?_, ?_⟩
      · intro k
        rw [hp.1.1 k]
        exact GStartsInv_mono (hT.2.1 k) hbt
      · intro k
        rw [hp.2]
        exact PShInv_mono (hT.2.2 k) hbt
  case commit gid state reason pst stA =>
    have hp := dispatch_commit_preserves res st ev gid state reason pst stA hd
    have hc := commitSpan_inv stA ev gid state reason pst st1 h
    refine ⟨?_, ?_, ?_⟩
    · intro hD
      apply hc.1
      intro k x hx
      rw [hp.1.1 k] at hx
      exact hD k x hx
    · intro hK
      exact hc.2.1 ⟨hp.1.2 hK.1, hp.2 ▸ hK.2⟩
    · intro b hT hbt
      apply hc.2.2 ev.Ts ?_ (le_refl _)
      refine ⟨le_trans hT.1 hbt, ?_, ?_⟩
      · intro k
        rw [hp.1.1 k]
        exact GStartsInv_mono (hT.2.1 k) hbt
      · intro k
        rw [hp.2]
        exact PShInv_mono (hT.2.2 k) hbt
  case fail m => cases h

theorem getLast?_getD_cons {α : Type} : ∀ (l : List α) (a b : α),
    ((a :: l).getLast?).getD b = (l.getLast?).getD a
  | [], _, _ => rfl
  | x :: t, a, b => by
    rw [List.getLast?_cons_cons]
    have h1 := getLast?_getD_cons t x b
    have h2 := getLast?_getD_cons t x a
    rw [h1, h2]

theorem runEvents_inv (res : ParseResult) :
    ∀ (evs : List Event) (st st1 : LoadState) (b : Int),
      runEvents res st evs = .ok st1 →
      DoneInv st.gs → KeysInv st → TimeInv st b →
      (∀ ev ∈ evs, b ≤ ev.Ts) →
      (evs.map Event.Ts).Pairwise (· ≤ ·) →
      DoneInv st1.gs ∧ KeysInv st1 ∧ TimeInv st1 (((evs.map Event.Ts).getLast?).getD b) := by
  intro evs
  induction evs with
  | nil =>
    intro st st1 b h hD hK hT _ _
    simp only [runEvents] at h
    cases h
    exact ⟨hD, hK, hT⟩
  | cons ev rest ih =>
    intro st st1 b h hD hK hT hb hsort
    simp only [runEvents] at h
    cases hpe : processEvent res st ev <;> rw [hpe] at h
    · cases h
    · rename_i stA
      have hi := processEvent_inv res st stA ev hpe
      have hbev : b ≤ ev.Ts := hb ev (by simp)
      have hpair := List.pairwise_cons.mp (by simpa using hsort :
        (ev.Ts :: rest.map Event.Ts).Pairwise (· ≤ ·))
      have hrest : ∀ e ∈ rest, ev.Ts ≤ e.Ts := by
        intro e he
        exact hpair.1 e.Ts (List.mem_map_of_mem Event.Ts he)
      have hrec := ih stA st1 ev.Ts h (hi.1 hD) (hi.2.1 hK) (hi.2.2 b hT hbev) hrest hpair.2
      rwa [List.map_cons, getLast?_getD_cons]

/-! ## Lemmas about the finalization pass -/

theorem applyPatterns_fields (s : Span) (pcs : Nat → String) (stack : List Nat) :
    (applyPatterns s pcs stack).Start = s.Start ∧
    (applyPatterns s pcs stack).End = s.End ∧
    ((applyPatterns s pcs stack).State = stateDone ↔ s.State = stateDone) := by
  unfold applyPatterns
  split
  · split
    · refine ⟨rfl, rfl, ?_, ?_⟩
      · intro hc
        cases hc
      · intro hc
        simp_all
    · exact ⟨rfl, rfl, Iff.rfl⟩
  · exact ⟨rfl, rfl, Iff.rfl⟩

theorem finalizeSpan_start (res : ParseResult) (ns : Option Int) (s : Span) :
    (finalizeSpan res ns s).Start = s.Start := by
  unfold finalizeSpan
  cases ns <;> simp [(applyPatterns_fields _ _ _).1]

theorem finalizeSpan_end_some (res : ParseResult) (t : Int) (s : Span) :
    (finalizeSpan res (some t) s).End = t := by
  unfold finalizeSpan
  simp [(applyPatterns_fields _ _ _).2.1]

theorem finalizeSpan_done (res : ParseResult) (ns : Option Int) (s : Span) :
    ((finalizeSpan res ns s).State = stateDone ↔ s.State = stateDone) := by
  unfold finalizeSpan
  cases ns <;> simp [(applyPatterns_fields _ _ _).2.2]

theorem finalizeLoop_map_start (res : ParseResult) : ∀ l : List Span,
    (finalizeLoop res l).map Span.Start = l.map Span.Start
  | [] => rfl
  | [s] => by simp [finalizeLoop, finalizeSpan_start]
  | s :: t :: rest => by
    have ih := finalizeLoop_map_start res (t :: rest)
    show (finalizeSpan res (some t.Start) s :: finalizeLoop res (t :: rest)).map Span.Start =
      (s :: t :: rest).map Span.Start
    rw [List.map_cons, finalizeSpan_start, ih]
    rfl

theorem finalizeLoop_ne_nil (res : ParseResult) (l : List Span) (h : l ≠ []) :
    finalizeLoop res l ≠ [] := by
  intro hc
  have := finalizeLoop_map_start res l
  rw [hc] at this
  cases l with
  | nil => exact h rfl
  | cons x t => simp at this

theorem finalizeLoop_head_start (res : ParseResult) (l : List Span) :
    ∀ y ∈ (finalizeLoop res l).head?, ∀ x ∈ l.head?, y.Start = x.Start := by
  intro y hy x hx
  have hms := finalizeLoop_map_start res l
  have h1 : ((finalizeLoop res l).head?).map Span.Start = (l.head?).map Span.Start := by
    rw [← List.head?_map, hms, List.head?_map]
  rw [Option.mem_def] at hy hx
  rw [hy, hx] at h1
  simpa using h1

theorem finalizeLoop_contig (res : ParseResult) : ∀ l : List Span,
    (finalizeLoop res l).Chain' (fun s t => s.End = t.Start)
  | [] => List.chain'_nil
  | [s] => List.chain'_singleton _
  | s :: t :: rest => by
    have ih := finalizeLoop_contig res (t :: rest)
    show List.Chain' _ (finalizeSpan res (some t.Start) s :: finalizeLoop res (t :: rest))
    rw [List.chain'_cons']
    refine ⟨?_, ih⟩
    intro y hy
    have hys := finalizeLoop_head_start res (t :: rest) y hy t (by simp)
    rw [finalizeSpan_end_some, hys]

theorem finalizeLoop_start_le_end (res : ParseResult) : ∀ l : List Span,
    l.Chain' (fun s t => s.Start ≤ t.Start) →
    ∀ s ∈ (finalizeLoop res l).dropLast, s.Start ≤ s.End
  | [] => by
    intro _ s hs
    cases hs
  | [x] => by
    intro _ s hs
    simp [finalizeLoop] at hs
  | x :: t :: rest => by
    intro hchain s hs
    have hne := finalizeLoop_ne_nil res (t :: rest) (by simp)
    simp only [finalizeLoop] at hs
    rw [List.dropLast_cons_of_ne_nil hne] at hs
    rcases List.mem_cons.mp hs with hs | hs
    · subst hs
      rw [finalizeSpan_start, finalizeSpan_end_some]
      exact (List.chain'_cons.mp hchain).1
    · exact finalizeLoop_start_le_end res (t :: rest) (List.chain'_cons.mp hchain).2 s hs

theorem finalizeLoop_done_mask (res : ParseResult) : ∀ l : List Span,
    (finalizeLoop res l).map (fun s => decide (s.State = stateDone)) =
      l.map (fun s => decide (s.State = stateDone))
  | [] => rfl
  | [s] => by
    show [decide ((finalizeSpan res none s).State = stateDone)] = _
    rw [decide_eq_decide.mpr (finalizeSpan_done res none s)]
    rfl
  | s :: t :: rest => by
    have ih := finalizeLoop_done_mask res (t :: rest)
    show (finalizeSpan res (some t.Start) s :: finalizeLoop res (t :: rest)).map _ =
      (s :: t :: rest).map _
    rw [List.map_cons, decide_eq_decide.mpr (finalizeSpan_done res _ s), ih]
    rfl

theorem map_dropLast' {α β : Type} (f : α → β) : ∀ l : List α,
    (l.dropLast).map f = (l.map f).dropLast
  | [] => rfl
  | [_] => rfl
  | x :: y :: t => congrArg (f x :: ·) (map_dropLast' f (y :: t))

theorem chain'_dropLast {α : Type} (R : α → α → Prop) : ∀ l : List α,
    l.Chain' R → (l.dropLast).Chain' R
  | [], _ => List.chain'_nil
  | [_], _ => List.chain'_nil
  | x :: y :: t, h => by
    have hc := List.chain'_cons.mp h
    cases t with
    | nil => exact List.chain'_singleton x
    | cons z t2 =>
      have ih := chain'_dropLast R (y :: z :: t2) hc.2
      show List.Chain' R (x :: (y :: z :: t2).dropLast)
      rw [List.chain'_cons']
      refine ⟨?_, ih⟩
      intro u hu
      have hdl : (y :: z :: t2).dropLast = y :: (z :: t2).dropLast := rfl
      rw [hdl, List.head?_cons, Option.mem_def, Option.some.injEq] at hu
      subst hu
      exact hc.1

theorem closeLast_map_start (t : Int) : ∀ (l l2 : List Span), closeLast t l = some l2 →
    l2.map Span.Start = l.map Span.Start
  | [], _, h => by cases h
  | [s], l2, h => by
    simp only [closeLast] at h
    cases h
    rfl
  | s :: u :: rest, l2, h => by
    cases h3 : closeLast t (u :: rest) with
    | none => simp [closeLast, h3] at h
    | some l3 =>
      simp only [closeLast, h3, Option.map_some'] at h
      cases h
      have ih := closeLast_map_start t (u :: rest) l3 h3
      simp only [List.map_cons, ih]

theorem closeLast_contig (t : Int) : ∀ (l l2 : List Span), closeLast t l = some l2 →
    l.Chain' (fun s u => s.End = u.Start) → l2.Chain' (fun s u => s.End = u.Start)
  | [], _, h, _ => by cases h
  | [s], l2, h, _ => by
    simp only [closeLast] at h
    cases h
    exact List.chain'_singleton _
  | s :: u :: rest, l2, h, hc => by
    cases h3 : closeLast t (u :: rest) with
    | none => simp [closeLast, h3] at h
    | some l3 =>
      simp only [closeLast, h3, Option.map_some'] at h
      cases h
      have hcc := List.chain'_cons.mp hc
      have ih := closeLast_contig t (u :: rest) l3 h3 hcc.2
      rw [List.chain'_cons']
      refine ⟨?_, ih⟩
      intro y hy
      have hms := closeLast_map_start t (u :: rest) l3 h3
      have h1 : (l3.head?).map Span.Start = ((u :: rest).head?).map Span.Start := by
        rw [← List.head?_map, hms, List.head?_map]
      rw [Option.mem_def] at hy
      rw [hy] at h1
      simp only [List.head?_cons, Option.map_some', Option.some.injEq] at h1
      rw [hcc.1, ← h1]

theorem closeLast_mem (t : Int) : ∀ (l l2 : List Span), closeLast t l = some l2 →
    ∀ x ∈ l2, x ∈ l.dropLast ∨ ∃ u, l.getLast? = some u ∧ x = { u with End := t }
  | [], _, h => by cases h
  | [s], l2, h => by
    simp only [closeLast] at h
    cases h
    intro x hx
    simp only [List.mem_singleton] at hx
    subst hx
    exact Or.inr ⟨s, rfl, rfl⟩
  | s :: u :: rest, l2, h => by
    cases h3 : closeLast t (u :: rest) with
    | none => simp [closeLast, h3] at h
    | some l3 =>
      simp only [closeLast, h3, Option.map_some'] at h
      cases h
      intro x hx
      rcases List.mem_cons.mp hx with hx | hx
      · subst hx
        left
        have hdl : (x :: u :: rest).dropLast = x :: (u :: rest).dropLast := rfl
        rw [hdl]
        exact List.mem_cons_self _ _
      · rcases closeLast_mem t (u :: rest) l3 h3 x hx with hm | ⟨v, hv, hxv⟩
        · left
          have hdl : (s :: u :: rest).dropLast = s :: (u :: rest).dropLast := rfl
          rw [hdl]
          exact List.mem_cons_of_mem _ hm
        · right
          exact ⟨v, by rw [List.getLast?_cons_cons]; exact hv, hxv⟩

theorem closeLast_decomp (t : Int) (l l2 : List Span) (h : closeLast t l = some l2) :
    ∃ init u, l = init ++ [u] ∧ l2 = init ++ [{ u with End := t }] := by
  rcases List.eq_nil_or_concat l with rfl | ⟨init, u, hl⟩
  · cases h
  · rw [List.concat_eq_append] at hl
    subst hl
    rw [closeLast_append] at h
    cases h
    exact ⟨init, u, rfl, rfl⟩

theorem finalizeLoop_nonempty_closeLast (res : ParseResult) (lastTs : Int) (spans : List Span)
    (last : Span) (hlast : (finalizeLoop res spans).getLast? = some last) :
    ∃ l2, closeLast lastTs (finalizeLoop res spans) = some l2 := by
  apply closeLast_isSome
  intro hc
  rw [hc] at hlast
  cases hlast

theorem finalizeG_contig (res : ParseResult) (lastTs : Int) (spans : List Span) :
    (finalizeG res lastTs spans).Chain' (fun s t => s.End = t.Start) := by
  have hloop := finalizeLoop_contig res spans
  rcases hgl : (finalizeLoop res spans).getLast? with _ | last
  · simp only [finalizeG, hgl]
    exact List.chain'_nil
  · simp only [finalizeG, hgl]
    split
    · exact chain'_dropLast _ _ hloop
    · obtain ⟨l2, hl2⟩ := finalizeLoop_nonempty_closeLast res lastTs spans last hgl
      rw [hl2, Option.getD_some]
      exact closeLast_contig lastTs _ _ hl2 hloop

theorem finalizeG_no_done (res : ParseResult) (lastTs : Int) (spans : List Span)
    (hD : ∀ s ∈ spans.dropLast, s.State ≠ stateDone) :
    ∀ s ∈ finalizeG res lastTs spans, s.State ≠ stateDone := by
  have hmask := finalizeLoop_done_mask res spans
  have hdropmask : ((finalizeLoop res spans).dropLast).map (fun s => decide (s.State = stateDone))
      = (spans.dropLast).map (fun s => decide (s.State = stateDone)) := by
    rw [map_dropLast', hmask, ← map_dropLast']
  have hdrop : ∀ s ∈ (finalizeLoop res spans).dropLast, s.State ≠ stateDone := by
    intro s hs
    have hmem := List.mem_map_of_mem (fun s => decide (s.State = stateDone)) hs
    rw [hdropmask] at hmem
    obtain ⟨r, hr, heq⟩ := List.mem_map.mp hmem
    have hrfalse : decide (r.State = stateDone) = false := decide_eq_false (hD r hr)
    rw [hrfalse] at heq
    exact of_decide_eq_false heq.symm
  rcases hgl : (finalizeLoop res spans).getLast? with _ | last
  · simp only [finalizeG, hgl]
    intro s hs
    cases hs
  · simp only [finalizeG, hgl]
    split
    · exact hdrop
    · rename_i hnotdone
      intro s hs
      obtain ⟨l2, hl2⟩ := finalizeLoop_nonempty_closeLast res lastTs spans last hgl
      rw [hl2, Option.getD_some] at hs
      rcases closeLast_mem lastTs _ _ hl2 s hs with hmem | ⟨u, hu, rfl⟩
      · exact hdrop s hmem
      · rw [hu] at hgl
        cases hgl
        exact hnotdone

theorem finalizeG_start_le_end (res : ParseResult) (lastTs : Int) (spans : List Span)
    (hchain : spans.Chain' (fun s t => s.Start ≤ t.Start))
    (hbound : ∀ s ∈ spans, s.Start ≤ lastTs) :
    ∀ s ∈ finalizeG res lastTs spans, s.Start ≤ s.End := by
  have hdrop := finalizeLoop_start_le_end res spans hchain
  rcases hgl : (finalizeLoop res spans).getLast? with _ | last
  · simp only [finalizeG, hgl]
    intro s hs
    cases hs
  · simp only [finalizeG, hgl]
    split
    · exact hdrop
    · intro s hs
      obtain ⟨l2, hl2⟩ := finalizeLoop_nonempty_closeLast res lastTs spans last hgl
      rw [hl2, Option.getD_some] at hs
      rcases closeLast_mem lastTs _ _ hl2 s hs with hmem | ⟨u, hu, rfl⟩
      · exact hdrop s hmem
      · show u.Start ≤ lastTs
        have humem : u ∈ finalizeLoop res spans := mem_of_getLast?' hu
        have hstart := List.mem_map_of_mem Span.Start humem
        rw [finalizeLoop_map_start] at hstart
        obtain ⟨r, hr, hre⟩ := List.mem_map.mp hstart
        rw [← hre]
        exact hbound r hr

theorem contig_head_le_last : ∀ (l : List Span),
    l.Chain' (fun s t => s.End = t.Start) → (∀ s ∈ l, s.Start ≤ s.End) →
    ∀ s ∈ l.head?, ∀ u ∈ l.getLast?, s.Start ≤ u.End
  | [], _, _ => by
    intro s hs
    cases hs
  | [x], _, hmem => by
    intro s hs u hu
    rw [Option.mem_def, List.head?_cons, Option.some.injEq] at hs
    rw [Option.mem_def, List.getLast?_singleton, Option.some.injEq] at hu
    subst hs
    subst hu
    exact hmem x (by simp)
  | x :: y :: t, hchain, hmem => by
    intro s hs u hu
    rw [Option.mem_def, List.head?_cons, Option.some.injEq] at hs
    subst hs
    have hc := List.chain'_cons.mp hchain
    rw [List.getLast?_cons_cons] at hu
    have ih := contig_head_le_last (y :: t) hc.2
      (fun r hr => hmem r (List.mem_cons_of_mem _ hr)) y (by simp) u hu
    have h1 : x.Start ≤ x.End := hmem x (by simp)
    rw [hc.1] at h1
    exact le_trans h1 ih

/-! ## Membership through the final sorts -/

theorem mem_insertGByID (g x : Goroutine) : ∀ l : List Goroutine,
    (x ∈ insertGByID g l ↔ x = g ∨ x ∈ l)
  | [] => by simp [insertGByID]
  | h :: t => by
    simp only [insertGByID]
    split
    · simp [List.mem_cons]
    · rw [List.mem_cons, mem_insertGByID g x t, List.mem_cons]
      tauto

theorem mem_sortGsByID (x : Goroutine) (l : List Goroutine) :
    x ∈ sortGsByID l ↔ x ∈ l := by
  unfold sortGsByID
  induction l with
  | nil => simp
  | cons h t ih =>
    simp only [List.foldr_cons, mem_insertGByID, ih, List.mem_cons]

theorem mem_insertPByID (p x : Processor) : ∀ l : List Processor,
    (x ∈ insertPByID p l ↔ x = p ∨ x ∈ l)
  | [] => by simp [insertPByID]
  | h :: t => by
    simp only [insertPByID]
    split
    · simp [List.mem_cons]
    · rw [List.mem_cons, mem_insertPByID p x t, List.mem_cons]
      tauto

theorem mem_sortPsByID (x : Processor) (l : List Processor) :
    x ∈ sortPsByID l ↔ x ∈ l := by
  unfold sortPsByID
  induction l with
  | nil => simp
  | cons h t ih =>
    simp only [List.foldr_cons, mem_insertPByID, ih, List.mem_cons]

/-! ## Invariants at the start of the pass -/

theorem initLoadState_DoneInv : DoneInv initLoadState.gs := by
  intro k x hx
  simp [initLoadState, getG, lookupG] at hx

theorem initLoadState_KeysInv : KeysInv initLoadState := by
  constructor <;> simp [initLoadState]

theorem initLoadState_TimeInv : TimeInv initLoadState 0 := by
  refine ⟨le_refl 0, ?_, ?_⟩
  · intro k
    refine ⟨?_, ?_⟩ <;> simp [initLoadState, getG, lookupG]
  · intro k
    refine ⟨?_, ?_, ?_⟩ <;> simp [initLoadState, getP, lookupP]

/-! ## Claim C1: contiguity of the finished trace -/

/-- C1 counterexample: a processor timeline with an idle gap and a
never-closed final running span fails both halves of the claimed
contiguity property. -/
theorem claim_c1_counterexample :
    loadTrace (res0 evsGap) = .ok (resultTrace (loadTrace (res0 evsGap))) ∧
    ¬ ContigClaimProp (resultTrace (loadTrace (res0 evsGap))) := by
  constructor
  · decide
  · decide

/-- C1 amended: in a finished trace built from a stream with
non-decreasing, non-negative timestamps, every goroutine's span list is
contiguous (each span's end equals the next span's start, and the first
start is at most the last end); processor span lists are only
gap-monotone (each span's end is at most the next span's start — the
sequential pass closes processor spans at stop events and never fills
idle gaps, and an unstopped final processor span keeps end 0). -/
theorem claim_c1 (res : ParseResult) (tr : Trace)
    (hsort : (res.Events.map Event.Ts).Pairwise (· ≤ ·))
    (hpos : ∀ ev ∈ res.Events, 0 ≤ ev.Ts)
    (hok : loadTrace res = .ok tr) :
    (∀ g ∈ tr.Gs, g.Spans.Chain' (fun s t => s.End = t.Start) ∧
      ∀ s ∈ g.Spans.head?, ∀ u ∈ g.Spans.getLast?, s.Start ≤ u.End) ∧
    (∀ p ∈ tr.Ps, p.Spans.Chain' (fun s t => s.End ≤ t.Start)) := by
  unfold loadTrace at hok
  cases hre : runEvents res initLoadState res.Events <;> rw [hre] at hok
  · cases hok
  · rename_i stF
    cases hok
    obtain ⟨hD, hK, hT⟩ := runEvents_inv res res.Events initLoadState stF 0 hre
      initLoadState_DoneInv initLoadState_KeysInv initLoadState_TimeInv hpos hsort
    constructor
    · intro g hg
      have hg2 := (mem_sortGsByID g _).mp hg
      have hgf := List.mem_filter.mp hg2
      obtain ⟨e, hemem, hge⟩ := List.mem_map.mp hgf.1
      subst hge
      have hlk := lookupG_of_mem_nodup _ _ hK.1 hemem
      have hgetG : getG stF.gs e.1 = e.2 := by simp [getG, hlk]
      have hGsh := hT.2.1 e.1
      rw [hgetG] at hGsh
      have hchain : e.2.Spans.Chain' (fun s t => s.Start ≤ t.Start) := by
        have hc := hGsh.1
        rw [List.chain'_map] at hc
        exact hc
      have hbound : ∀ s ∈ e.2.Spans,
          s.Start ≤ ((res.Events.map Event.Ts).getLast?).getD 0 :=
        fun s hs => (hGsh.2 _ (List.mem_map_of_mem spanShape hs)).2
      refine ⟨finalizeG_contig res _ e.2.Spans, ?_⟩
      exact contig_head_le_last _ (finalizeG_contig res _ e.2.Spans)
        (finalizeG_start_le_end res _ e.2.Spans hchain hbound)
    · intro p hp
      have hp2 := (mem_sortPsByID p _).mp hp
      obtain ⟨e, hemem, hpe⟩ := List.mem_map.mp hp2
      subst hpe
      have hlk := lookupP_of_mem_nodup _ _ hK.2 hemem
      have hgetP : getP stF.ps e.1 = e.2 := by simp [getP, hlk]
      have hPsh := hT.2.2 e.1
      rw [hgetP] at hPsh
      have hc := hPsh.2.2
      rw [List.chain'_map] at hc
      exact hc

theorem claim_c1_witness :
    ((res0 evsScenario).Events.map Event.Ts).Pairwise (· ≤ ·) ∧
    (∀ g ∈ (resultTrace (loadTrace (res0 evsScenario))).Gs,
      g.Spans.Chain' (fun s t => s.End = t.Start) ∧
      ∀ s ∈ g.Spans.head?, ∀ u ∈ g.Spans.getLast?, s.Start ≤ u.End) :=
  ⟨by decide,
   (claim_c1 (res0 evsScenario) (resultTrace (loadTrace (res0 evsScenario)))
     (by decide) (by decide) (by decide)).1⟩

/-! ## Claim C5: finalization of the last span -/

/-- C5: the per-goroutine finalizer drops a trailing `stateDone` span
(`spans1.dropLast` in the source) and otherwise closes the trailing span
at the given final timestamp; downstream, a successfully loaded trace
with non-decreasing non-negative timestamps retains no `stateDone` span
in any goroutine's span list. -/
theorem claim_c5 (res : ParseResult) (lastTs : Int) (spans : List Span)
    (tr : Trace)
    (hsort : (res.Events.map Event.Ts).Pairwise (· ≤ ·))
    (hpos : ∀ ev ∈ res.Events, 0 ≤ ev.Ts)
    (hok : loadTrace res = .ok tr) :
    (∀ last ∈ spans.getLast?, last.State = stateDone →
      finalizeG res lastTs spans = (finalizeLoop res spans).dropLast) ∧
    (∀ last ∈ spans.getLast?, last.State ≠ stateDone →
      ∃ l s2, finalizeG res lastTs spans = l ++ [s2] ∧ s2.End = lastTs) ∧
    (∀ g ∈ tr.Gs, ∀ s ∈ g.Spans, s.State ≠ stateDone) := by
  have hmask := finalizeLoop_done_mask res spans
  have hglmask : ((finalizeLoop res spans).getLast?).map
        (fun s => decide (s.State = stateDone)) =
      (spans.getLast?).map (fun s => decide (s.State = stateDone)) := by
    rw [← getLast?_map', ← getLast?_map', hmask]
  refine ⟨?_, ?_, ?_⟩
  · intro last hlast hdone
    rw [Option.mem_def] at hlast
    rw [hlast] at hglmask
    rcases hgl : (finalizeLoop res spans).getLast? with _ | l2
    · rw [hgl] at hglmask
      cases hglmask
    · rw [hgl, Option.map_some', Option.map_some', Option.some.injEq] at hglmask
      have hl2done : l2.State = stateDone :=
        of_decide_eq_true (hglmask.trans (decide_eq_true hdone))
      simp only [finalizeG, hgl]
      rw [if_pos hl2done]
  · intro last hlast hndone
    rw [Option.mem_def] at hlast
    rw [hlast] at hglmask
    rcases hgl : (finalizeLoop res spans).getLast? with _ | l2
    · rw [hgl] at hglmask
      cases hglmask
    · rw [hgl, Option.map_some', Option.map_some', Option.some.injEq] at hglmask
      have hl2ndone : ¬ l2.State = stateDone := fun hc =>
        hndone (of_decide_eq_true (hglmask.symm.trans (decide_eq_true hc)))
      simp only [finalizeG, hgl]
      rw [if_neg hl2ndone]
      obtain ⟨l2', hl2'⟩ := finalizeLoop_nonempty_closeLast res lastTs spans l2 hgl
      rw [hl2', Option.getD_some]
      obtain ⟨init, u, _, hdecomp⟩ := closeLast_decomp lastTs _ l2' hl2'
      exact ⟨init, { u with End := lastTs }, by rw [hdecomp], rfl⟩
  · unfold loadTrace at hok
    cases hre : runEvents res initLoadState res.Events <;> rw [hre] at hok
    · cases hok
    · rename_i stF
      cases hok
      obtain ⟨hD, hK, hT⟩ := runEvents_inv res res.Events initLoadState stF 0 hre
        initLoadState_DoneInv initLoadState_KeysInv initLoadState_TimeInv hpos hsort
      intro g hg
      have hg2 := (mem_sortGsByID g _).mp hg
      have hgf := List.mem_filter.mp hg2
      obtain ⟨e, hemem, hge⟩ := List.mem_map.mp hgf.1
      subst hge
      have hlk := lookupG_of_mem_nodup _ _ hK.1 hemem
      have hgetG : getG stF.gs e.1 = e.2 := by simp [getG, hlk]
      have hDk := hD e.1
      rw [hgetG] at hDk
      intro s hs
      apply finalizeG_no_done res _ e.2.Spans ?_ s hs
      intro u hu hcu
      have hmem : spanShape u ∈ ((e.2.Spans).map spanShape).dropLast := by
        rw [← map_dropLast']
        exact List.mem_map_of_mem spanShape hu
      exact hDk _ hmem hcu

theorem claim_c5_witness :
    ((res0 evsScenario).Events.map Event.Ts).Pairwise (· ≤ ·) ∧
    (∀ g ∈ (resultTrace (loadTrace (res0 evsScenario))).Gs,
      ∀ s ∈ g.Spans, s.State ≠ stateDone) :=
  ⟨by decide,
   (claim_c5 (res0 evsScenario) 6 [mkSpan ev0 stateDone "" 0]
     (resultTrace (loadTrace (res0 evsScenario)))
     (by decide) (by decide) (by decide)).2.2⟩
